import Mathlib

/-!
Shallow embedding of the one-dimensional constrained layout engine of
mathuo/splitview (`SplitView` in
`src/packages/splitview/src/paneview/paneviewPanel.ts`).

JS numbers are modelled by `ℚ`; `Number.POSITIVE_INFINITY` in an item's
`maximumSize` is modelled by `Option ℚ` with `none` standing for the
unbounded case.  The DOM bookkeeping (containers, CSS, sash elements,
event listeners) is out of scope per the spec; sashes are modelled by
their count, which is the only engine-visible datum about them.
-/

namespace Splitview

/-- IBaseView from the source: the capability contract of a managed item.
`maximumSize = none` models `Number.POSITIVE_INFINITY`; `snapSize = some q`
models a declared snap size (only its presence matters to the engine). -/
structure IBaseView where
  minimumSize : ℚ
  maximumSize : Option ℚ
  snapSize : Option ℚ
deriving DecidableEq, Repr

/-- IViewItem from the source, without the DOM `container`/`dispose` fields. -/
structure IViewItem where
  view : IBaseView
  size : ℚ
deriving DecidableEq, Repr

/-- Modelled from the spec: `clamp` from `util.ts` (file not in src/),
`Math.min(Math.max(value, low), high)`. -/
def clamp (value low high : ℚ) : ℚ := min (max value low) high

/-- Clamp with a possibly-infinite upper bound: `Math.min(Math.max(value, low), high)`
where `high = none` is `Number.POSITIVE_INFINITY` (so the `min` is a no-op). -/
def clampTop (value low : ℚ) (high : Option ℚ) : ℚ :=
  match high with
  | none => max value low
  | some h => min (max value low) h

/-- Effective minimum of an item, as computed inline in `resize`:
`typeof snapSize === 'number' ? 0 : minimumSize`. -/
def effMin (v : IBaseView) : ℚ :=
  match v.snapSize with
  | some _ => 0
  | none => v.minimumSize

/-- Modelled from the spec: `clampView` from `util.ts` (file not in src/).
Per spec section 4.1 it clamps a size to the item's bounds, treating a declared
snap size as an effective floor of 0, matching the snap semantics of `resize`. -/
def clampView (v : IBaseView) (size : ℚ) : ℚ :=
  clampTop size (effMin v) v.maximumSize

/-- Modelled from the spec: `pushToStart` from `util.ts` (file not in src/):
if `x` occurs in the list, remove its first occurrence and prepend it. -/
def pushToStart (l : List Nat) (x : Nat) : List Nat :=
  if x ∈ l then x :: l.erase x else l

/-- Modelled from the spec: `pushToEnd` from `util.ts` (file not in src/):
if `x` occurs in the list, remove its first occurrence and append it. -/
def pushToEnd (l : List Nat) (x : Nat) : List Nat :=
  if x ∈ l then l.erase x ++ [x] else l

/-- The priority reordering done at the top of `resize`: every high-priority
index is pushed to the start of the processing order, then every low-priority
index is pushed to the end. -/
def applyPriorities (l : List Nat) (lowPriorityIndexes highPriorityIndexes : Option (List Nat)) :
    List Nat :=
  let l1 := match highPriorityIndexes with
    | none => l
    | some hs => hs.foldl pushToStart l
  match lowPriorityIndexes with
  | none => l1
  | some ls => ls.foldl pushToEnd l1

/-- Placeholder for an out-of-range element access.  `resize` with
`index = views.length` passes the guard and dereferences a missing element,
a TypeError in JS; no claim exercises that input. -/
def dummyItem : IViewItem := ⟨⟨0, some 0, none⟩, 0⟩

/-- Element access `this.views[i]`. -/
def itemAt (views : List IViewItem) (i : Nat) : IViewItem := views.getD i dummyItem

/-- Option-valued addition where `none` is `+∞`: used to sum maximum sizes. -/
def addTop : Option ℚ → Option ℚ → Option ℚ
  | some a, some b => some (a + b)
  | _, _ => none

/-- Subtraction `m - s` where `m = none` is `+∞`. -/
def subTop (m : Option ℚ) (s : ℚ) : Option ℚ := m.map (fun a => a - s)

/-- `Math.min` of two possibly `+∞` quantities. -/
def minTop : Option ℚ → Option ℚ → Option ℚ
  | some a, some b => some (min a b)
  | some a, none => some a
  | none, some b => some b
  | none, none => none

/-- Update `views[i].size` (the JS loops mutate the shared item objects). -/
def setSize (views : List IViewItem) (i : Nat) (s : ℚ) : List IViewItem :=
  match views[i]? with
  | none => views
  | some it => views.set i { it with size := s }

/-- The "up" loop of `resize`: each item in priority order absorbs as much of
the remaining delta as its own clamp allows; returns the accumulated
`actualDelta` and the new sizes in processing order. -/
def upPass (deltaUp : ℚ) : List (IBaseView × ℚ) → ℚ × List ℚ
  | [] => (0, [])
  | (v, s) :: rest =>
    let size := clampView v (s + deltaUp)
    let viewDelta := size - s
    let r := upPass (deltaUp - viewDelta) rest
    (viewDelta + r.1, size :: r.2)

/-- The "down" loop of `resize`: the actual delta is applied with opposite
sign along the down side, each item absorbing what its clamp allows. -/
def downPass (deltaDown : ℚ) : List (IBaseView × ℚ) → List ℚ
  | [] => []
  | (v, s) :: rest =>
    let size := clampView v (s - deltaDown)
    let viewDelta := size - s
    size :: downPass (deltaDown + viewDelta) rest

/-- SplitView.resize, the central delta-redistribution algorithm
(paneviewPanel.ts lines 764-860).  `sizes` is the baseline; callers that pass
no baseline use the current sizes (see `resizeCur`). -/
def resize (views : List IViewItem) (index : ℤ) (delta : ℚ) (sizes : List ℚ)
    (lowPriorityIndexes highPriorityIndexes : Option (List Nat)) : List IViewItem :=
  if index < 0 ∨ (views.length : ℤ) < index then views
  else
    let n := index.toNat
    let upIndexes := applyPriorities ((List.range (n + 1)).reverse)
      lowPriorityIndexes highPriorityIndexes
    let downIndexes := applyPriorities (List.range' (n + 1) (views.length - (n + 1)))
      lowPriorityIndexes highPriorityIndexes
    let upItems := upIndexes.map (fun i => (itemAt views i).view)
    let upSizes := upIndexes.map (fun i => sizes.getD i 0)
    let downItems := downIndexes.map (fun i => (itemAt views i).view)
    let downSizes := downIndexes.map (fun i => sizes.getD i 0)
    let minDeltaUp := upIndexes.foldl
      (fun acc i => acc + effMin (itemAt views i).view - sizes.getD i 0) 0
    let maxDeltaUp := upIndexes.foldl
      (fun acc i => addTop acc (subTop (itemAt views i).view.maximumSize (sizes.getD i 0)))
      (some 0)
    -- maxDeltaDown: +∞ when there are no down-side items, else a finite sum.
    let maxDeltaDown : Option ℚ :=
      if downIndexes.length = 0 then none
      else some (downIndexes.foldl
        (fun acc i => acc + sizes.getD i 0 - effMin (itemAt views i).view) 0)
    -- minDeltaDown: none means -∞ (no down-side items, or an unbounded maximum
    -- makes the JS sum collapse to -Infinity).
    let minDeltaDown : Option ℚ :=
      if downIndexes.length = 0 then none
      else downIndexes.foldl
        (fun acc i =>
          match acc, (itemAt views i).view.maximumSize with
          | some a, some m => some (a + sizes.getD i 0 - m)
          | _, _ => none)
        (some 0)
    let minDelta : ℚ :=
      match minDeltaDown with
      | none => minDeltaUp
      | some md => max minDeltaUp md
    let maxDelta : Option ℚ := minTop maxDeltaDown maxDeltaUp
    let tentativeDelta := clampTop delta minDelta maxDelta
    let up := upPass tentativeDelta (upItems.zip upSizes)
    let downNew := downPass up.1 (downItems.zip downSizes)
    let views1 := (upIndexes.zip up.2).foldl (fun vs p => setSize vs p.1 p.2) views
    (downIndexes.zip downNew).foldl (fun vs p => setSize vs p.1 p.2) views1

/-- resize with the default baseline `this.views.map((x) => x.size)`. -/
def resizeCur (views : List IViewItem) (index : ℤ) (delta : ℚ)
    (lowPriorityIndexes highPriorityIndexes : Option (List Nat)) : List IViewItem :=
  resize views index delta (views.map (fun x => x.size)) lowPriorityIndexes highPriorityIndexes

/-- JS `Math.round`: round half toward positive infinity. -/
def jsRound (q : ℚ) : ℚ := (⌊q + 1 / 2⌋ : ℤ)

/-- The engine state.  `contentSize` and `proportions` start `undefined` in the
source (no initializer), modelled by `none`.  Sashes carry no engine state
beyond their existence, so they are modelled by their count. -/
structure SplitView where
  views : List IViewItem
  sashes : Nat
  size : ℚ
  orthogonalSize : ℚ
  contentSize : Option ℚ
  proportions : Option (List ℚ)
deriving DecidableEq, Repr

/-- Sum of the current item sizes, `this.views.reduce((r, i) => r + i.size, 0)`. -/
def contentOf (views : List IViewItem) : ℚ := (views.map (fun i => i.size)).sum

/-- SplitView.layoutViews: records the content size; the remaining body only
positions DOM nodes and forwards sizes to the items (out of scope). -/
def layoutViews (sv : SplitView) : SplitView :=
  { sv with contentSize := some (contentOf sv.views) }

/-- SplitView.saveProportions (lines 724-728). -/
def saveProportions (sv : SplitView) : SplitView :=
  match sv.contentSize with
  | some c =>
    if 0 < c then { sv with proportions := some (sv.views.map (fun i => i.size / c)) }
    else sv
  | none => sv

/-- SplitView.relayout: reconcile via `resize` anchored at the last item, then
re-layout and snapshot proportions. -/
def relayout (sv : SplitView) (lowPriorityIndexes highPriorityIndexes : Option (List Nat)) :
    SplitView :=
  let contentSize := contentOf sv.views
  let sv1 := { sv with
    views := resizeCur sv.views ((sv.views.length : ℤ) - 1) (sv.size - contentSize)
      lowPriorityIndexes highPriorityIndexes }
  saveProportions (layoutViews sv1)

/-- The loop body of `distributeEmptySpace`, walking the (already reversed)
item list; the loop guard `emptyDelta !== 0` stops early. -/
def desAux (emptyDelta : ℚ) : List IViewItem → List IViewItem
  | [] => []
  | item :: rest =>
    if emptyDelta = 0 then item :: rest
    else
      let size := clampView item.view (item.size + emptyDelta)
      let viewDelta := size - item.size
      { item with size := size } :: desAux (emptyDelta - viewDelta) rest

/-- SplitView.distributeEmptySpace (lines 710-722): walk items from last to
first, clamping each toward `size + emptyDelta`, until the remainder is gone. -/
def distributeEmptySpace (sv : SplitView) : SplitView :=
  let contentSize := contentOf sv.views
  let emptyDelta := sv.size - contentSize
  { sv with views := (desAux emptyDelta sv.views.reverse).reverse }

/-- SplitView.layout (lines 674-691): store the new sizes, allocate
`round(proportion[i] * size)` clamped to each item's bounds, then fix the
rounding drift with `distributeEmptySpace` and arrange (`layoutViews`).
Line 686 reads `this._proportions[i]` unconditionally: with `_proportions`
unset the member access throws a TypeError at the first view, and with
`_proportions` shorter than the view list `undefined * size` is NaN, which
`distributeEmptySpace` then spreads over every item, so the call returns with
no size a (rational) number.  Neither path yields rational sizes; both are
modelled as `none`.  With no views the loop body never runs, so an unset
snapshot is then harmless. -/
def layout (sv : SplitView) (size orthogonalSize : ℚ) : Option SplitView :=
  match sv.proportions with
  | none =>
    if sv.views.length = 0 then
      some (layoutViews (distributeEmptySpace
        { sv with size := size, orthogonalSize := orthogonalSize }))
    else none
  | some props =>
    if props.length < sv.views.length then none
    else
      let views1 := sv.views.enum.map
        (fun p => { p.2 with size := clampView p.2.view (jsRound (props.getD p.1 0 * size)) })
      some (layoutViews (distributeEmptySpace
        { sv with size := size, orthogonalSize := orthogonalSize, views := views1 }))

/-- SplitView.getViewSize (lines 421-427): out-of-range indexes return the
sentinel `-1`. -/
def getViewSize (sv : SplitView) (index : ℤ) : ℚ :=
  if index < 0 ∨ (sv.views.length : ℤ) ≤ index then -1
  else (itemAt sv.views index.toNat).size

/-- SplitView.resizeView (lines 429-458): clamp the requested size to
`[minimumSize, min(maximumSize, this.size)]`, assign, and relayout. -/
def resizeView (sv : SplitView) (index : ℤ) (size : ℚ) : SplitView :=
  if index < 0 ∨ (sv.views.length : ℤ) ≤ index then sv
  else
    let item := itemAt sv.views index.toNat
    let size1 := jsRound size
    let hi : ℚ := match item.view.maximumSize with
      | none => sv.size
      | some m => min m sv.size
    let size2 := clamp size1 item.view.minimumSize hi
    relayout { sv with views := setSize sv.views index.toNat size2 } none none

/-- An item is flexible when `maximumSize - minimumSize > 0`
(`Infinity - m > 0` holds in JS for every finite `m`). -/
def flexible (item : IViewItem) : Bool :=
  match item.view.maximumSize with
  | none => true
  | some m => decide (item.view.minimumSize < m)

/-- SplitView.distributeViewSizes (lines 600-629): assign
`floor(total flexible size / flexible count)` to each flexible item, clamped to
its own stated bounds, then relayout.  When there are no flexible items the JS
average is NaN but is never used; the `0` here is likewise unused. -/
def distributeViewSizes (sv : SplitView) : SplitView :=
  let flexibleViewItems := sv.views.filter flexible
  let flexibleSize := (flexibleViewItems.map (fun i => i.size)).sum
  let size : ℚ :=
    if flexibleViewItems.length = 0 then 0
    else (⌊flexibleSize / (flexibleViewItems.length : ℚ)⌋ : ℤ)
  let views1 := sv.views.map
    (fun item =>
      if flexible item then
        { item with size := clampTop size item.view.minimumSize item.view.maximumSize }
      else item)
  relayout { sv with views := views1 } none none

/-- The `Sizing` union from the source. -/
inductive Sizing where
  | distribute
  | split (index : ℤ)
deriving DecidableEq, Repr

/-- The `size` argument of `addView`: an explicit number or a `Sizing`. -/
inductive AddSize where
  | px (size : ℚ)
  | sizing (s : Sizing)
deriving DecidableEq, Repr

/-- SplitView.addView (lines 486-598), without the DOM plumbing: derive the
initial size, splice the item in, add a sash when more than one item remains,
then relayout (low priority on the new index) and optionally distribute.
JS `splice(index, 0, x)` clamps an index beyond the end to the end. -/
def addView (sv : SplitView) (view : IBaseView) (size : AddSize) (index : Nat)
    (skipLayout : Bool) : SplitView :=
  let viewSize : ℚ :=
    match size with
    | .px q => q
    | .sizing (.split i) => getViewSize sv i / 2
    | .sizing .distribute => view.minimumSize
  let views1 := sv.views.insertIdx (min index sv.views.length) ⟨view, viewSize⟩
  let sashes1 := if 1 < views1.length then sv.sashes + 1 else sv.sashes
  let sv1 := { sv with views := views1, sashes := sashes1 }
  let sv2 := if skipLayout then sv1 else relayout sv1 (some [index]) none
  match size, skipLayout with
  | .sizing .distribute, false => distributeViewSizes sv2
  | _, _ => sv2

/-- JS `Array.prototype.splice` start-index normalisation: negative indexes
count from the end, clamped to `[0, len]`. -/
def spliceStart (len : Nat) (index : ℤ) : Nat :=
  if index < 0 then (max ((len : ℤ) + index) 0).toNat
  else (min index (len : ℤ)).toNat

/-- SplitView.removeView (lines 631-651).  `this.views.splice(index, 1)[0]` is
`undefined` when the splice removes nothing, and the following
`viewItem.dispose()` then throws a TypeError; likewise
`sashItem.disposable()` throws when the sash splice removes nothing.  Both
aborts are modelled by `Except.error` carrying the state at the throw. -/
def removeView (sv : SplitView) (index : ℤ) (sizing : Option Sizing) :
    Except SplitView (SplitView × IBaseView) :=
  let k := spliceStart sv.views.length index
  match sv.views.get? k with
  | none => .error sv
  | some viewItem =>
    let sv1 := { sv with views := sv.views.eraseIdx k }
    if 1 ≤ sv1.views.length ∧ sv.sashes = 0 then .error sv1
    else
      let sv2 :=
        if 1 ≤ sv1.views.length then { sv1 with sashes := sv.sashes - 1 } else sv1
      let sv3 := distributeEmptySpace (relayout sv2 none none)
      let sv4 := match sizing with
        | some .distribute => distributeViewSizes sv3
        | _ => sv3
      .ok (sv4, viewItem.view)

/-- SplitView.minimumSize (lines 374-376): the sum of the items' minimums. -/
def minimumSize (sv : SplitView) : ℚ :=
  sv.views.foldl (fun r item => r + item.view.minimumSize) 0

/-- SplitView.maximumSize (lines 378-382): `+∞` (`none`) for an empty engine,
else the sum of the items' maximums (`none` once any item is unbounded). -/
def maximumSize (sv : SplitView) : Option ℚ :=
  if sv.views.length = 0 then none
  else sv.views.foldl (fun r item => addTop r item.view.maximumSize) (some 0)

/-! ## Bounds predicates and slack sums -/

/-- `s` is below an optional upper bound (`none` meaning `+∞`). -/
def leMax (s : ℚ) : Option ℚ → Prop
  | none => True
  | some m => s ≤ m

instance (s : ℚ) (o : Option ℚ) : Decidable (leMax s o) :=
  match o with
  | none => isTrue trivial
  | some m => inferInstanceAs (Decidable (s ≤ m))

@[simp] theorem leMax_none (s : ℚ) : leMax s none := trivial

@[simp] theorem leMax_some (s m : ℚ) : leMax s (some m) ↔ s ≤ m := Iff.rfl

/-- An item size is within the item's effective bounds (spec section 3:
`minimum ≤ currentSize ≤ maximum` with the snap-size floor of 0). -/
def InBounds (v : IBaseView) (s : ℚ) : Prop := effMin v ≤ s ∧ leMax s v.maximumSize

instance (v : IBaseView) (s : ℚ) : Decidable (InBounds v s) :=
  inferInstanceAs (Decidable (And _ _))

/-- A well-formed item: its effective minimum does not exceed its maximum. -/
def WF (v : IBaseView) : Prop := leMax (effMin v) v.maximumSize

instance (v : IBaseView) : Decidable (WF v) := inferInstanceAs (Decidable (leMax _ _))

/-- Aggregate downward slack of a list of (item, baseline size) pairs:
the sum of `effective minimum - size`. -/
def sumLo : List (IBaseView × ℚ) → ℚ
  | [] => 0
  | (v, s) :: t => (effMin v - s) + sumLo t

/-- Aggregate upward slack of a list of (item, baseline size) pairs: the sum
of `maximum - size`, which is `+∞` (`none`) once any item is unbounded. -/
def sumHi : List (IBaseView × ℚ) → Option ℚ
  | [] => some 0
  | (v, s) :: t => addTop (subTop v.maximumSize s) (sumHi t)

/-! ## clampTop lemmas -/

theorem clampTop_eq_self {d lo : ℚ} {hi : Option ℚ} (h1 : lo ≤ d) (h2 : leMax d hi) :
    clampTop d lo hi = d := by
  cases hi with
  | none => simpa [clampTop] using h1
  | some h => simp [clampTop, max_eq_left h1, min_eq_left (leMax_some _ _ |>.mp h2)]

theorem leMax_clampTop (d lo : ℚ) (hi : Option ℚ) : leMax (clampTop d lo hi) hi := by
  cases hi with
  | none => trivial
  | some h => simpa [clampTop] using min_le_right _ _

theorem le_clampTop {lo : ℚ} {hi : Option ℚ} (d : ℚ) (h : leMax lo hi) :
    lo ≤ clampTop d lo hi := by
  cases hi with
  | none => simpa [clampTop] using le_max_right d lo
  | some m => exact le_min (le_max_right d lo) (leMax_some _ _ |>.mp h)

theorem clampTop_nonpos {d lo : ℚ} {hi : Option ℚ} (hd : d ≤ 0) (hlo : lo ≤ 0) :
    clampTop d lo hi ≤ 0 := by
  cases hi with
  | none => simpa [clampTop] using max_le hd hlo
  | some h => exact le_trans (min_le_left _ _) (max_le hd hlo)

theorem clampTop_nonneg {d lo : ℚ} {hi : Option ℚ} (hd : 0 ≤ d) (hhi : leMax 0 hi) :
    0 ≤ clampTop d lo hi := by
  cases hi with
  | none => simpa [clampTop] using le_trans hd (le_max_left d lo)
  | some h => exact le_min (le_trans hd (le_max_left d lo)) (leMax_some _ _ |>.mp hhi)

/-- Splitting identity behind the greedy clamp-and-propagate passes: when the
first chunk offers downward room `A ≤ 0` and upward room `B ≥ 0`, and the rest
offers `C ≤ 0` and `D ≥ 0`, clamping `d` into the combined room equals what
the first chunk absorbs plus what the rest absorbs of the remainder. -/
theorem clampTop_split (d A C : ℚ) (B D : Option ℚ) (hA : A ≤ 0) (hC : C ≤ 0)
    (hB : leMax 0 B) (hD : leMax 0 D) :
    clampTop d (A + C) (addTop B D) =
      clampTop d A B + clampTop (d - clampTop d A B) C D := by
  cases B with
  | none =>
    cases D with
    | none =>
      simp only [clampTop, addTop]
      rcases le_total d A with h | h
      · rw [max_eq_right h]
        rcases le_total d (A + C) with h2 | h2
        · rw [max_eq_right h2, max_eq_right (show d - A ≤ C by linarith)]
        · rw [max_eq_left h2, max_eq_left (show C ≤ d - A by linarith)]
          ring
      · rw [max_eq_left h, max_eq_left (show A + C ≤ d by linarith), sub_self,
          max_eq_left hC]
        ring
    | some e =>
      have he : 0 ≤ e := leMax_some _ _ |>.mp hD
      simp only [clampTop, addTop]
      rcases le_total d A with h | h
      · rw [max_eq_right h]
        rcases le_total d (A + C) with h2 | h2
        · rw [max_eq_right h2, max_eq_right (show d - A ≤ C by linarith),
            min_eq_left (show C ≤ e by linarith)]
        · rw [max_eq_left h2, max_eq_left (show C ≤ d - A by linarith),
            min_eq_left (show d - A ≤ e by linarith)]
          ring
      · rw [max_eq_left h, max_eq_left (show A + C ≤ d by linarith), sub_self,
          max_eq_left hC, min_eq_left (show (0 : ℚ) ≤ e by linarith)]
        ring
  | some b =>
    have hb : 0 ≤ b := leMax_some _ _ |>.mp hB
    cases D with
    | none =>
      simp only [clampTop, addTop]
      rcases le_total d A with h | h
      · rw [max_eq_right h, min_eq_left (show A ≤ b by linarith)]
        rcases le_total d (A + C) with h2 | h2
        · rw [max_eq_right h2, max_eq_right (show d - A ≤ C by linarith)]
        · rw [max_eq_left h2, max_eq_left (show C ≤ d - A by linarith)]
          ring
      · rw [max_eq_left h, max_eq_left (show A + C ≤ d by linarith)]
        rcases le_total d b with h2 | h2
        · rw [min_eq_left h2, sub_self, max_eq_left hC]
          ring
        · rw [min_eq_right h2, max_eq_left (show C ≤ d - b by linarith)]
          ring
    | some e =>
      have he : 0 ≤ e := leMax_some _ _ |>.mp hD
      simp only [clampTop, addTop]
      rcases le_total d A with h | h
      · rw [max_eq_right h, min_eq_left (show A ≤ b by linarith)]
        rcases le_total d (A + C) with h2 | h2
        · rw [max_eq_right h2, min_eq_left (show A + C ≤ b + e by linarith),
            max_eq_right (show d - A ≤ C by linarith),
            min_eq_left (show C ≤ e by linarith)]
        · rw [max_eq_left h2, min_eq_left (show d ≤ b + e by linarith),
            max_eq_left (show C ≤ d - A by linarith),
            min_eq_left (show d - A ≤ e by linarith)]
          ring
      · rw [max_eq_left h, max_eq_left (show A + C ≤ d by linarith)]
        rcases le_total d b with h2 | h2
        · rw [min_eq_left h2, sub_self, max_eq_left hC,
            min_eq_left (show d ≤ b + e by linarith),
            min_eq_left (show (0 : ℚ) ≤ e by linarith)]
          ring
        · rw [min_eq_right h2, max_eq_left (show C ≤ d - b by linarith)]
          rcases le_total (d - b) e with h3 | h3
          · rw [min_eq_left (show d ≤ b + e by linarith),
              min_eq_left (show d - b ≤ e by linarith)]
            ring
          · rw [min_eq_right (show b + e ≤ d by linarith),
              min_eq_right (show e ≤ d - b by linarith)]

/-! ## Pass lemmas: greedy absorption computes a clamp -/

theorem sumLo_nonpos {l : List (IBaseView × ℚ)} (h : ∀ p ∈ l, InBounds p.1 p.2) :
    sumLo l ≤ 0 := by
  induction l with
  | nil => simp [sumLo]
  | cons p t ih =>
    have hp := h p (List.mem_cons_self p t)
    have ht := ih (fun q hq => h q (List.mem_cons_of_mem p hq))
    obtain ⟨v, s⟩ := p
    have : effMin v - s ≤ 0 := by
      have := hp.1
      simpa using sub_nonpos.mpr this
    simpa [sumLo] using add_nonpos this ht

theorem leMax_zero_sumHi {l : List (IBaseView × ℚ)} (h : ∀ p ∈ l, InBounds p.1 p.2) :
    leMax 0 (sumHi l) := by
  induction l with
  | nil => simp [sumHi]
  | cons p t ih =>
    have hp := h p (List.mem_cons_self p t)
    have ht := ih (fun q hq => h q (List.mem_cons_of_mem p hq))
    obtain ⟨v, s⟩ := p
    simp only [sumHi]
    cases hm : v.maximumSize with
    | none => simp [addTop, subTop]
    | some m =>
      cases hs : sumHi t with
      | none => simp [addTop, subTop]
      | some r =>
        have h1 : s ≤ m := by
          have := hp.2
          rw [hm] at this
          exact this
        have h2 : 0 ≤ r := by
          rw [hs] at ht
          exact ht
        refine (leMax_some _ _).mpr ?_
        show (0 : ℚ) ≤ m - s + r
        linarith

theorem clampTop_zero {lo : ℚ} {hi : Option ℚ} (hlo : lo ≤ 0) (hhi : leMax 0 hi) :
    clampTop 0 lo hi = 0 := by
  cases hi with
  | none => simp [clampTop, max_eq_left hlo]
  | some h => simp [clampTop, max_eq_left hlo, min_eq_left (leMax_some _ _ |>.mp hhi)]

/-- One step of a clamp-and-propagate pass: the head's absorption is itself a
clamp of the incoming delta into the head's own slack interval. -/
theorem clampView_sub_self (v : IBaseView) (s d : ℚ) :
    clampView v (s + d) - s = clampTop d (effMin v - s) (subTop v.maximumSize s) := by
  cases hm : v.maximumSize with
  | none =>
    have h1 : clampView v (s + d) = max (s + d) (effMin v) := by
      simp [clampView, clampTop, hm]
    have h2 : clampTop d (effMin v - s) (subTop none s) = max d (effMin v - s) := by
      simp [clampTop, subTop]
    rw [h1, h2, ← max_sub_sub_right, add_sub_cancel_left]
  | some m =>
    have h1 : clampView v (s + d) = min (max (s + d) (effMin v)) m := by
      simp [clampView, clampTop, hm]
    have h2 : clampTop d (effMin v - s) (subTop (some m) s) =
        min (max d (effMin v - s)) (m - s) := by
      simp [clampTop, subTop]
    rw [h1, h2, ← min_sub_sub_right, ← max_sub_sub_right, add_sub_cancel_left]

theorem upPass_actual {l : List (IBaseView × ℚ)} (d : ℚ)
    (h : ∀ p ∈ l, InBounds p.1 p.2) :
    (upPass d l).1 = clampTop d (sumLo l) (sumHi l) := by
  induction l generalizing d with
  | nil =>
    simp [upPass, sumLo, sumHi, clampTop, min_eq_right (le_max_right d 0)]
  | cons p t ih =>
    have hp := h p (List.mem_cons_self p t)
    have ht : ∀ q ∈ t, InBounds q.1 q.2 := fun q hq => h q (List.mem_cons_of_mem p hq)
    obtain ⟨v, s⟩ := p
    have hstep := clampView_sub_self v s d
    have hA : effMin v - s ≤ 0 := sub_nonpos.mpr hp.1
    have hB : leMax 0 (subTop v.maximumSize s) := by
      cases hm : v.maximumSize with
      | none => simp [subTop]
      | some m =>
        have h1 : s ≤ m := by
          have := hp.2
          rw [hm] at this
          exact this
        exact (leMax_some _ _).mpr (sub_nonneg.mpr h1)
    simp only [upPass, sumLo, sumHi]
    rw [ih (d - (clampView v (s + d) - s)) ht, hstep,
      clampTop_split d (effMin v - s) (sumLo t) (subTop v.maximumSize s) (sumHi t)
        hA (sumLo_nonpos ht) hB (leMax_zero_sumHi ht)]

theorem upPass_sum (d : ℚ) (l : List (IBaseView × ℚ)) :
    (upPass d l).2.sum = (l.map Prod.snd).sum + (upPass d l).1 := by
  induction l generalizing d with
  | nil => simp [upPass]
  | cons p t ih =>
    obtain ⟨v, s⟩ := p
    simp only [upPass, List.map_cons, List.sum_cons]
    rw [ih]
    ring

theorem upPass_length (d : ℚ) (l : List (IBaseView × ℚ)) :
    (upPass d l).2.length = l.length := by
  induction l generalizing d with
  | nil => simp [upPass]
  | cons p t ih =>
    obtain ⟨v, s⟩ := p
    simp [upPass, ih]

theorem clampView_eq_self {v : IBaseView} {s : ℚ} (h : InBounds v s) :
    clampView v s = s := clampTop_eq_self h.1 h.2

theorem upPass_zero {l : List (IBaseView × ℚ)} (h : ∀ p ∈ l, InBounds p.1 p.2) :
    upPass 0 l = (0, l.map Prod.snd) := by
  induction l with
  | nil => simp [upPass]
  | cons p t ih =>
    have hp := h p (List.mem_cons_self p t)
    have ht : ∀ q ∈ t, InBounds q.1 q.2 := fun q hq => h q (List.mem_cons_of_mem p hq)
    obtain ⟨v, s⟩ := p
    have hcl : clampView v s = s := clampView_eq_self hp
    simp [upPass, hcl, ih ht]

theorem downPass_eq_upPass (d : ℚ) (l : List (IBaseView × ℚ)) :
    downPass d l = (upPass (-d) l).2 := by
  induction l generalizing d with
  | nil => simp [downPass, upPass]
  | cons p t ih =>
    obtain ⟨v, s⟩ := p
    simp only [downPass, upPass]
    rw [show s - d = s + -d by ring, ih]
    rw [show -(d + (clampView v (s + -d) - s)) = -d - (clampView v (s + -d) - s) by ring]

/-- Pair projection of an item list, as consumed by the slack sums. -/
def pairsOfItems (l : List IViewItem) : List (IBaseView × ℚ) :=
  l.map (fun it => (it.view, it.size))

theorem desAux_length (d : ℚ) (l : List IViewItem) : (desAux d l).length = l.length := by
  induction l generalizing d with
  | nil => simp [desAux]
  | cons it t ih =>
    by_cases hd : d = 0
    · simp [desAux, hd]
    · simp [desAux, hd, ih]

theorem desAux_sum {l : List IViewItem} (d : ℚ)
    (h : ∀ it ∈ l, InBounds it.view it.size) :
    ((desAux d l).map IViewItem.size).sum =
      (l.map IViewItem.size).sum + clampTop d (sumLo (pairsOfItems l)) (sumHi (pairsOfItems l)) := by
  induction l generalizing d with
  | nil =>
    simp [desAux, pairsOfItems, sumLo, sumHi, clampTop, min_eq_right (le_max_right d 0)]
  | cons it t ih =>
    have hp : InBounds it.view it.size := h it (List.mem_cons_self it t)
    have ht : ∀ q ∈ t, InBounds q.view q.size := fun q hq => h q (List.mem_cons_of_mem it hq)
    have hpl : ∀ p ∈ pairsOfItems (it :: t), InBounds p.1 p.2 := by
      intro p hp'
      simp only [pairsOfItems, List.mem_map] at hp'
      obtain ⟨q, hq, rfl⟩ := hp'
      exact h q hq
    have hA : effMin it.view - it.size ≤ 0 := sub_nonpos.mpr hp.1
    have hB : leMax 0 (subTop it.view.maximumSize it.size) := by
      cases hm : it.view.maximumSize with
      | none => simp [subTop]
      | some m =>
        have h1 : it.size ≤ m := by
          have := hp.2
          rw [hm] at this
          exact this
        exact (leMax_some _ _).mpr (sub_nonneg.mpr h1)
    have htl : ∀ p ∈ pairsOfItems t, InBounds p.1 p.2 := by
      intro p hp'
      simp only [pairsOfItems, List.mem_map] at hp'
      obtain ⟨q, hq, rfl⟩ := hp'
      exact ht q hq
    by_cases hd : d = 0
    · subst hd
      rw [clampTop_zero (sumLo_nonpos hpl) (leMax_zero_sumHi hpl)]
      simp [desAux]
    · have hstep := clampView_sub_self it.view it.size d
      simp only [desAux, hd, if_false, List.map_cons, List.sum_cons, pairsOfItems,
        sumLo, sumHi]
      rw [ih (d - (clampView it.view (it.size + d) - it.size)) ht]
      simp only [pairsOfItems] at *
      rw [hstep,
        clampTop_split d (effMin it.view - it.size) (sumLo (t.map fun it => (it.view, it.size)))
          (subTop it.view.maximumSize it.size) (sumHi (t.map fun it => (it.view, it.size)))
          hA (sumLo_nonpos htl) hB (leMax_zero_sumHi htl)]
      rw [show clampView it.view (it.size + d) =
          it.size + clampTop d (-it.size + effMin it.view)
            (subTop it.view.maximumSize it.size) by
        rw [show -it.size + effMin it.view = effMin it.view - it.size by ring]
        linarith [hstep]]
      ring

/-! ## Option-sum algebra and sum reindexing -/

/-- Negation of a possibly `+∞` quantity (sending it to `-∞`). -/
def negTop (o : Option ℚ) : Option ℚ := o.map (fun a => -a)

theorem addTop_assoc (a b c : Option ℚ) : addTop (addTop a b) c = addTop a (addTop b c) := by
  cases a <;> cases b <;> cases c <;> simp [addTop, add_assoc]

theorem addTop_comm (a b : Option ℚ) : addTop a b = addTop b a := by
  cases a <;> cases b <;> simp [addTop, add_comm]

theorem addTop_zero_left (a : Option ℚ) : addTop (some 0) a = a := by
  cases a <;> simp [addTop]

theorem addTop_zero_right (a : Option ℚ) : addTop a (some 0) = a := by
  cases a <;> simp [addTop]

theorem sumLo_eq_sum_map (l : List (IBaseView × ℚ)) :
    sumLo l = (l.map (fun p => effMin p.1 - p.2)).sum := by
  induction l with
  | nil => simp [sumLo]
  | cons p t ih => obtain ⟨v, s⟩ := p; simp [sumLo, ih]

theorem sumLo_reverse (l : List (IBaseView × ℚ)) : sumLo l.reverse = sumLo l := by
  rw [sumLo_eq_sum_map, sumLo_eq_sum_map, List.map_reverse, List.sum_reverse]

theorem sumHi_append (l₁ l₂ : List (IBaseView × ℚ)) :
    sumHi (l₁ ++ l₂) = addTop (sumHi l₁) (sumHi l₂) := by
  induction l₁ with
  | nil => simp [sumHi, addTop_zero_left]
  | cons p t ih => obtain ⟨v, s⟩ := p; simp [sumHi, ih, addTop_assoc]

theorem sumHi_reverse (l : List (IBaseView × ℚ)) : sumHi l.reverse = sumHi l := by
  induction l with
  | nil => rfl
  | cons p t ih =>
    obtain ⟨v, s⟩ := p
    rw [List.reverse_cons, sumHi_append, ih, addTop_comm]
    show addTop (addTop (subTop v.maximumSize s) (some 0)) (sumHi t) = sumHi ((v, s) :: t)
    rw [addTop_zero_right]
    rfl

theorem sum_take_eq_range (l : List ℚ) (m : Nat) :
    (l.take m).sum = ((List.range m).map (fun i => l.getD i 0)).sum := by
  induction m with
  | zero => simp
  | succ k ih =>
    rw [List.take_succ, List.sum_append, ih, List.range_succ, List.map_append,
      List.sum_append]
    simp [List.getD_eq_getElem?_getD]
    cases l[k]? <;> simp

theorem sum_eq_range (l : List ℚ) :
    l.sum = ((List.range l.length).map (fun i => l.getD i 0)).sum := by
  rw [← sum_take_eq_range, List.take_length]

theorem sum_drop_eq_range' (l : List ℚ) (m : Nat) :
    (l.drop m).sum = ((List.range' m (l.length - m)).map (fun i => l.getD i 0)).sum := by
  rw [sum_eq_range (l.drop m), List.length_drop, List.range'_eq_map_range, List.map_map]
  refine congrArg List.sum (List.map_congr_left ?_)
  intro i _
  simp [List.getD_eq_getElem?_getD, List.getElem?_drop]

/-! ## setSize and write-back folds -/

theorem length_setSize (vs : List IViewItem) (i : Nat) (s : ℚ) :
    (setSize vs i s).length = vs.length := by
  unfold setSize
  cases h : vs[i]? <;> simp [h]

theorem setSize_map_size (vs : List IViewItem) (i : Nat) (s : ℚ) :
    (setSize vs i s).map IViewItem.size = (vs.map IViewItem.size).set i s := by
  unfold setSize
  cases h : vs[i]? with
  | none =>
    have hle : vs.length ≤ i := List.getElem?_eq_none_iff.mp h
    rw [List.set_eq_of_length_le (by simpa using hle)]
  | some it => simp [h, List.map_set]

theorem set_getElem?_self {α : Type} {l : List α} {i : Nat} {a : α} (h : l[i]? = some a) :
    l.set i a = l := by
  have hlt : i < l.length := by
    by_contra hc
    rw [List.getElem?_eq_none_iff.mpr (by omega)] at h
    exact Option.noConfusion h
  apply List.ext_getElem?
  intro n
  by_cases hn : i = n
  · subst hn
    rw [List.getElem?_set, if_pos rfl, if_pos hlt, h]
  · rw [List.getElem?_set, if_neg hn]

theorem setSize_map_view (vs : List IViewItem) (i : Nat) (s : ℚ) :
    (setSize vs i s).map IViewItem.view = vs.map IViewItem.view := by
  unfold setSize
  cases h : vs[i]? with
  | none => rfl
  | some it =>
    show (vs.set i { it with size := s }).map IViewItem.view = vs.map IViewItem.view
    rw [List.map_set]
    exact set_getElem?_self (by simp [List.getElem?_map, h])

theorem foldl_setSize_map_size (ps : List (Nat × ℚ)) (vs : List IViewItem) :
    (ps.foldl (fun vs p => setSize vs p.1 p.2) vs).map IViewItem.size =
      ps.foldl (fun l p => l.set p.1 p.2) (vs.map IViewItem.size) := by
  induction ps generalizing vs with
  | nil => rfl
  | cons p t ih => rw [List.foldl_cons, List.foldl_cons, ih, setSize_map_size]

theorem foldl_setSize_map_view (ps : List (Nat × ℚ)) (vs : List IViewItem) :
    (ps.foldl (fun vs p => setSize vs p.1 p.2) vs).map IViewItem.view =
      vs.map IViewItem.view := by
  induction ps generalizing vs with
  | nil => rfl
  | cons p t ih => rw [List.foldl_cons, ih, setSize_map_view]

theorem length_foldl_set (ps : List (Nat × ℚ)) (l : List ℚ) :
    (ps.foldl (fun l p => l.set p.1 p.2) l).length = l.length := by
  induction ps generalizing l with
  | nil => rfl
  | cons p t ih => rw [List.foldl_cons, ih, List.length_set]

theorem getElem?_foldl_set_not_mem {ps : List (Nat × ℚ)} {l : List ℚ} {q : Nat}
    (h : q ∉ ps.map Prod.fst) :
    (ps.foldl (fun l p => l.set p.1 p.2) l)[q]? = l[q]? := by
  induction ps generalizing l with
  | nil => rfl
  | cons p t ih =>
    rw [List.foldl_cons, ih (fun hq => h (List.mem_cons_of_mem _ hq)),
      List.getElem?_set, if_neg (fun he => h (by simp [he.symm]))]

theorem map_getD_foldl_set_zip (keys : List Nat) (vals : List ℚ) (l : List ℚ)
    (hnd : keys.Nodup) (hlen : keys.length = vals.length)
    (hbound : ∀ k ∈ keys, k < l.length) :
    keys.map (fun k => ((keys.zip vals).foldl (fun l p => l.set p.1 p.2) l).getD k 0) =
      vals := by
  induction keys generalizing vals l with
  | nil =>
    cases vals with
    | nil => rfl
    | cons v vt => exact absurd hlen (by simp)
  | cons k kt ih =>
    cases vals with
    | nil => exact absurd hlen (by simp)
    | cons v vt =>
      have hk : k < l.length := hbound k (List.mem_cons_self _ _)
      have hknotin : k ∉ kt := (List.nodup_cons.mp hnd).1
      have hndt : kt.Nodup := (List.nodup_cons.mp hnd).2
      have hlent : kt.length = vt.length := by simpa using hlen
      rw [List.zip_cons_cons, List.map_cons, List.foldl_cons]
      have hhead :
          ((kt.zip vt).foldl (fun l p => l.set p.1 p.2) (l.set k v)).getD k 0 = v := by
        rw [List.getD_eq_getElem?_getD, getElem?_foldl_set_not_mem, List.getElem?_set,
          if_pos rfl, if_pos (by simpa using hk)]
        · rfl
        · intro hmem
          rcases List.mem_map.mp hmem with ⟨p, hp, hfst⟩
          exact hknotin (hfst ▸ List.of_mem_zip hp |>.1)
      rw [hhead]
      congr 1
      exact ih vt (l.set k v) hndt hlent
        (fun q hq => by rw [List.length_set]; exact hbound q (List.mem_cons_of_mem _ hq))

theorem getElem?_foldl_set_zip (keys : List Nat) (vals : List ℚ) (l : List ℚ)
    (hnd : keys.Nodup) (hlen : keys.length = vals.length) {k : Nat} {v : ℚ}
    (hmem : (k, v) ∈ keys.zip vals) (hk : k < l.length) :
    ((keys.zip vals).foldl (fun l p => l.set p.1 p.2) l)[k]? = some v := by
  induction keys generalizing vals l with
  | nil => cases vals <;> simp [List.zip] at hmem
  | cons k0 kt ih =>
    cases vals with
    | nil => simp [List.zip] at hmem
    | cons v0 vt =>
      have hknotin : k0 ∉ kt := (List.nodup_cons.mp hnd).1
      have hndt : kt.Nodup := (List.nodup_cons.mp hnd).2
      have hlent : kt.length = vt.length := by simpa using hlen
      rw [List.zip_cons_cons, List.foldl_cons]
      rcases List.mem_cons.mp hmem with heq | hmemt
      · obtain ⟨rfl, rfl⟩ := Prod.mk.injEq _ _ _ _ ▸ heq
        rw [getElem?_foldl_set_not_mem, List.getElem?_set, if_pos rfl, if_pos hk]
        intro hmem2
        rcases List.mem_map.mp hmem2 with ⟨p, hp, hfst⟩
        exact hknotin (hfst ▸ List.of_mem_zip hp |>.1)
      · exact ih vt (l.set k0 v0) hndt hlent hmemt (by rw [List.length_set]; exact hk)

/-! ## Fold-to-sum bridges for the slack computations inside resize -/

theorem foldl_minUp (f : Nat → IBaseView) (g : Nat → ℚ) (is : List Nat) (acc : ℚ) :
    is.foldl (fun acc i => acc + effMin (f i) - g i) acc =
      acc + sumLo (is.map (fun i => (f i, g i))) := by
  induction is generalizing acc with
  | nil => simp [sumLo]
  | cons i t ih => rw [List.foldl_cons, ih, List.map_cons]; simp [sumLo]; ring

theorem foldl_maxUp (f : Nat → IBaseView) (g : Nat → ℚ) (is : List Nat) (acc : Option ℚ) :
    is.foldl (fun acc i => addTop acc (subTop (f i).maximumSize (g i))) acc =
      addTop acc (sumHi (is.map (fun i => (f i, g i)))) := by
  induction is generalizing acc with
  | nil => simp [sumHi, addTop_zero_right]
  | cons i t ih => rw [List.foldl_cons, ih, List.map_cons]; simp [sumHi, addTop_assoc]

theorem foldl_maxDown (f : Nat → IBaseView) (g : Nat → ℚ) (is : List Nat) (acc : ℚ) :
    is.foldl (fun acc i => acc + g i - effMin (f i)) acc =
      acc - sumLo (is.map (fun i => (f i, g i))) := by
  induction is generalizing acc with
  | nil => simp [sumLo]
  | cons i t ih => rw [List.foldl_cons, ih, List.map_cons]; simp [sumLo]; ring

theorem negTop_addTop (a b : Option ℚ) : negTop (addTop a b) = addTop (negTop a) (negTop b) := by
  cases a <;> cases b <;> simp [negTop, addTop]; ring

theorem foldl_minDown (f : Nat → IBaseView) (g : Nat → ℚ) (is : List Nat) (acc : Option ℚ) :
    is.foldl
      (fun acc i =>
        match acc, (f i).maximumSize with
        | some a, some m => some (a + g i - m)
        | _, _ => none) acc =
      addTop acc (negTop (sumHi (is.map (fun i => (f i, g i))))) := by
  induction is generalizing acc with
  | nil => simp [sumHi, negTop, addTop_zero_right]
  | cons i t ih =>
    rw [List.foldl_cons, ih, List.map_cons]
    have hstep :
        (match acc, (f i).maximumSize with
          | some a, some m => some (a + g i - m)
          | _, _ => none) =
        addTop acc (negTop (subTop (f i).maximumSize (g i))) := by
      cases acc <;> cases (f i).maximumSize <;> simp [addTop, negTop, subTop] <;> ring
    rw [hstep]
    simp only [sumHi, negTop_addTop, addTop_assoc]

/-! ## Characterization of resize at an in-range index with no priorities -/

theorem applyPriorities_none (l : List Nat) : applyPriorities l none none = l := rfl

/-- The (item, baseline size) pair read by `resize` at index `i`. -/
def pairAt (views : List IViewItem) (sizes : List ℚ) (i : Nat) : IBaseView × ℚ :=
  ((itemAt views i).view, sizes.getD i 0)

/-- The up-side processing order `range(index, -1)`: `[index, ..., 0]`. -/
def upIdx (n : Nat) : List Nat := (List.range (n + 1)).reverse

/-- The down-side processing order `range(index + 1, length)`. -/
def downIdx (len n : Nat) : List Nat := List.range' (n + 1) (len - (n + 1))

theorem resize_nat_spec (views : List IViewItem) (sizes : List ℚ) (n : Nat) (delta : ℚ)
    (h : n ≤ views.length) :
    resize views (n : ℤ) delta sizes none none =
      (let upPl := (upIdx n).map (pairAt views sizes)
       let downPl := (downIdx views.length n).map (pairAt views sizes)
       let tentativeDelta := clampTop delta
         (match (if (downIdx views.length n).length = 0 then none
                 else negTop (sumHi downPl)) with
          | none => sumLo upPl
          | some md => max (sumLo upPl) md)
         (minTop (if (downIdx views.length n).length = 0 then none
                  else some (-(sumLo downPl))) (sumHi upPl))
       ((downIdx views.length n).zip (downPass (upPass tentativeDelta upPl).1 downPl)).foldl
         (fun vs p => setSize vs p.1 p.2)
         (((upIdx n).zip (upPass tentativeDelta upPl).2).foldl
           (fun vs p => setSize vs p.1 p.2) views)) := by
  unfold resize
  rw [if_neg (by push_neg; omega)]
  simp only [Int.toNat_natCast, applyPriorities_none, List.zip_map']
  rw [foldl_minUp, foldl_maxUp, foldl_maxDown, foldl_minDown]
  simp only [zero_add, addTop_zero_left, sub_zero, zero_sub]
  rfl

/-! ## Index lists, segments and transported bounds -/

theorem downPass_length (d : ℚ) (l : List (IBaseView × ℚ)) :
    (downPass d l).length = l.length := by
  rw [downPass_eq_upPass, upPass_length]

theorem length_upIdx (n : Nat) : (upIdx n).length = n + 1 := by
  simp [upIdx]

theorem length_downIdx (len n : Nat) : (downIdx len n).length = len - (n + 1) := by
  simp [downIdx]

theorem mem_upIdx {i n : Nat} : i ∈ upIdx n ↔ i ≤ n := by
  simp [upIdx, List.mem_range]
  omega

theorem mem_downIdx {i len n : Nat} : i ∈ downIdx len n ↔ n + 1 ≤ i ∧ i < len := by
  rw [downIdx, List.mem_range'_1]
  omega

theorem nodup_upIdx (n : Nat) : (upIdx n).Nodup := by
  simp [upIdx, List.nodup_reverse, List.nodup_range]

theorem nodup_downIdx (len n : Nat) : (downIdx len n).Nodup := by
  simp [downIdx, List.nodup_range']

theorem itemAt_lt {views : List IViewItem} {i : Nat} (h : i < views.length) :
    itemAt views i = views[i] := by
  simp [itemAt, List.getD_eq_getElem?_getD, List.getElem?_eq_getElem h]

theorem range_map_pairAt (views : List IViewItem) (sizes : List ℚ)
    (hlen : sizes.length = views.length) {m : Nat} (hm : m ≤ views.length) :
    (List.range m).map (pairAt views sizes) = ((views.map IViewItem.view).zip sizes).take m := by
  apply List.ext_getElem?
  intro j
  rw [List.getElem?_map, List.getElem?_take]
  by_cases hj : j < m
  · have hjv : j < views.length := lt_of_lt_of_le hj hm
    rw [if_pos hj, List.getElem?_range hj, List.zip_eq_zipWith, List.getElem?_zipWith,
      List.getElem?_map, List.getElem?_eq_getElem hjv,
      List.getElem?_eq_getElem (show j < sizes.length by omega)]
    simp [pairAt, itemAt_lt hjv, List.getD_eq_getElem?_getD, List.getElem?_eq_getElem
      (show j < sizes.length by omega)]
  · rw [if_neg hj, List.getElem?_eq_none_iff.mpr (by simpa using Nat.le_of_not_lt hj)]
    rfl

theorem downIdx_map_pairAt (views : List IViewItem) (sizes : List ℚ)
    (hlen : sizes.length = views.length) (n : Nat) :
    (downIdx views.length n).map (pairAt views sizes) =
      ((views.map IViewItem.view).zip sizes).drop (n + 1) := by
  apply List.ext_getElem?
  intro j
  rw [List.getElem?_map]
  have hplen : ((views.map IViewItem.view).zip sizes).length = views.length := by
    simp [hlen]
  by_cases hj : j < views.length - (n + 1)
  · have hk : n + 1 + j < views.length := by omega
    rw [downIdx, List.getElem?_range' _ _ hj, List.getElem?_drop]
    have hk2 : n + 1 + j < sizes.length := by omega
    rw [List.zip_eq_zipWith, List.getElem?_zipWith, List.getElem?_map,
      List.getElem?_eq_getElem hk, List.getElem?_eq_getElem hk2]
    simp [pairAt, itemAt_lt hk, List.getD_eq_getElem?_getD,
      List.getElem?_eq_getElem hk2, Nat.one_mul]
  · rw [downIdx, List.getElem?_eq_none_iff.mpr (by simpa using Nat.le_of_not_lt hj),
      List.getElem?_eq_none_iff.mpr (by simp [hplen]; omega)]
    rfl

theorem upIdx_map_pairAt (views : List IViewItem) (sizes : List ℚ)
    (hlen : sizes.length = views.length) {n : Nat} (hn : n < views.length) :
    (upIdx n).map (pairAt views sizes) =
      (((views.map IViewItem.view).zip sizes).take (n + 1)).reverse := by
  rw [upIdx, List.map_reverse, range_map_pairAt views sizes hlen (by omega)]

theorem pairs_inbounds {views : List IViewItem} {sizes : List ℚ}
    (hb : ∀ i (h : i < views.length), InBounds views[i].view (sizes.getD i 0))
    {is : List Nat} (his : ∀ i ∈ is, i < views.length) :
    ∀ p ∈ is.map (pairAt views sizes), InBounds p.1 p.2 := by
  intro p hp
  rcases List.mem_map.mp hp with ⟨i, hi, rfl⟩
  have hlt := his i hi
  rw [pairAt, itemAt_lt hlt]
  exact hb i hlt

theorem leMax_minTop_left {x : ℚ} {a b : Option ℚ} (h : leMax x (minTop a b)) : leMax x a := by
  cases a <;> cases b <;> simp_all [minTop, leMax]

theorem leMax_minTop_right {x : ℚ} {a b : Option ℚ} (h : leMax x (minTop a b)) : leMax x b := by
  cases a <;> cases b <;> simp_all [minTop, leMax]

theorem leMax_zero_minTop {a b : Option ℚ} (ha : leMax 0 a) (hb : leMax 0 b) :
    leMax 0 (minTop a b) := by
  cases a <;> cases b <;> simp_all [minTop, leMax]

theorem leMax_of_nonpos {x : ℚ} {o : Option ℚ} (hx : x ≤ 0) (ho : leMax 0 o) :
    leMax x o := by
  cases o with
  | none => trivial
  | some m => exact le_trans hx ho

theorem leMax_zero_negTop_sumHi {l : List (IBaseView × ℚ)} :
    ∀ md, negTop (sumHi l) = some md → leMax 0 (sumHi l) → md ≤ 0 := by
  intro md hmd h0
  cases hs : sumHi l with
  | none => rw [hs] at hmd; exact Option.noConfusion hmd
  | some r =>
    rw [hs] at hmd h0
    have : md = -r := by
      simpa [negTop] using hmd.symm
    subst this
    simpa using h0

/-! ## Spec-side delta range (claim C1), named after the spec text -/

/-- The (item, baseline) pairs in item order, as the spec describes them. -/
def specPairs (views : List IViewItem) (sizes : List ℚ) : List (IBaseView × ℚ) :=
  (views.map IViewItem.view).zip sizes

/-- Spec: sum over items 0..index of (effective minimum - baseline size). -/
def specMinDeltaUp (views : List IViewItem) (sizes : List ℚ) (index : Nat) : ℚ :=
  sumLo ((specPairs views sizes).take (index + 1))

/-- Spec: sum over items 0..index of (maximum - baseline size). -/
def specMaxDeltaUp (views : List IViewItem) (sizes : List ℚ) (index : Nat) : Option ℚ :=
  sumHi ((specPairs views sizes).take (index + 1))

/-- Spec: sum over down-side items of (baseline size - maximum), `-∞` when there
are no down-side items. -/
def specMinDeltaDown (views : List IViewItem) (sizes : List ℚ) (index : Nat) : Option ℚ :=
  if views.length ≤ index + 1 then none
  else negTop (sumHi ((specPairs views sizes).drop (index + 1)))

/-- Spec: sum over down-side items of (baseline size - effective minimum), `+∞`
when there are no down-side items. -/
def specMaxDeltaDown (views : List IViewItem) (sizes : List ℚ) (index : Nat) : Option ℚ :=
  if views.length ≤ index + 1 then none
  else some (-(sumLo ((specPairs views sizes).drop (index + 1))))

/-- Spec: the requested delta clamped into
`[max(minDeltaUp, minDeltaDown), min(maxDeltaDown, maxDeltaUp)]`. -/
def specClampedDelta (views : List IViewItem) (sizes : List ℚ) (index : Nat) (delta : ℚ) : ℚ :=
  clampTop delta
    (match specMinDeltaDown views sizes index with
     | none => specMinDeltaUp views sizes index
     | some md => max (specMinDeltaUp views sizes index) md)
    (minTop (specMaxDeltaDown views sizes index) (specMaxDeltaUp views sizes index))

theorem tentative_eq_spec (views : List IViewItem) (sizes : List ℚ) (n : Nat)
    (hlen : sizes.length = views.length) (hn : n < views.length) (delta : ℚ) :
    clampTop delta
      (match (if (downIdx views.length n).length = 0 then none
              else negTop (sumHi ((downIdx views.length n).map (pairAt views sizes)))) with
       | none => sumLo ((upIdx n).map (pairAt views sizes))
       | some md => max (sumLo ((upIdx n).map (pairAt views sizes))) md)
      (minTop (if (downIdx views.length n).length = 0 then none
               else some (-(sumLo ((downIdx views.length n).map (pairAt views sizes)))))
        (sumHi ((upIdx n).map (pairAt views sizes)))) = specClampedDelta views sizes n delta := by
  rw [upIdx_map_pairAt views sizes hlen hn, downIdx_map_pairAt views sizes hlen n,
    sumLo_reverse, sumHi_reverse, length_downIdx]
  unfold specClampedDelta specMinDeltaDown specMaxDeltaDown specMinDeltaUp specMaxDeltaUp specPairs
  by_cases hd : views.length ≤ n + 1
  · rw [if_pos (by omega), if_pos (by omega), if_pos hd, if_pos hd]
  · rw [if_neg (by omega), if_neg (by omega), if_neg hd, if_neg hd]

theorem specPairs_inbounds {views : List IViewItem} {sizes : List ℚ}
    (hlen : sizes.length = views.length)
    (hb : ∀ i (h : i < views.length), InBounds views[i].view (sizes.getD i 0)) :
    ∀ p ∈ specPairs views sizes, InBounds p.1 p.2 := by
  intro p hp
  rcases List.mem_iff_getElem.mp hp with ⟨i, hi, rfl⟩
  have hiv : i < views.length := by
    simpa [specPairs, hlen] using hi
  have his : i < sizes.length := by omega
  unfold specPairs
  rw [List.getElem_zip]
  simp only [List.getElem_map]
  have : sizes[i] = sizes.getD i 0 := by
    rw [List.getD_eq_getElem?_getD, List.getElem?_eq_getElem his]
    rfl
  rw [this]
  exact hb i hiv

theorem specClampedDelta_bounds (views : List IViewItem) (sizes : List ℚ)
    (index : Nat) (delta : ℚ)
    (hlen : sizes.length = views.length) (hidx : index < views.length)
    (hb : ∀ i (h : i < views.length), InBounds views[i].view (sizes.getD i 0)) :
    specMinDeltaUp views sizes index ≤ specClampedDelta views sizes index delta ∧
    leMax (specClampedDelta views sizes index delta) (specMaxDeltaUp views sizes index) ∧
    (index + 1 < views.length →
      sumLo ((specPairs views sizes).drop (index + 1)) ≤
          -(specClampedDelta views sizes index delta) ∧
      leMax (-(specClampedDelta views sizes index delta))
        (sumHi ((specPairs views sizes).drop (index + 1)))) := by
  have hmem := specPairs_inbounds hlen hb
  have hup_mem : ∀ p ∈ (specPairs views sizes).take (index + 1), InBounds p.1 p.2 :=
    fun p hp => hmem p (List.mem_of_mem_take hp)
  have hdn_mem : ∀ p ∈ (specPairs views sizes).drop (index + 1), InBounds p.1 p.2 :=
    fun p hp => hmem p (List.mem_of_mem_drop hp)
  have hLoU : sumLo ((specPairs views sizes).take (index + 1)) ≤ 0 := sumLo_nonpos hup_mem
  have hHiU : leMax 0 (sumHi ((specPairs views sizes).take (index + 1))) :=
    leMax_zero_sumHi hup_mem
  have hLoD : sumLo ((specPairs views sizes).drop (index + 1)) ≤ 0 := sumLo_nonpos hdn_mem
  have hHiD : leMax 0 (sumHi ((specPairs views sizes).drop (index + 1))) :=
    leMax_zero_sumHi hdn_mem
  have hlo_le_zero :
      (match specMinDeltaDown views sizes index with
       | none => specMinDeltaUp views sizes index
       | some md => max (specMinDeltaUp views sizes index) md) ≤ 0 := by
    cases hcase : specMinDeltaDown views sizes index with
    | none => exact hLoU
    | some md =>
      have hmd : md ≤ 0 := by
        unfold specMinDeltaDown at hcase
        by_cases hd : views.length ≤ index + 1
        · rw [if_pos hd] at hcase; exact Option.noConfusion hcase
        · rw [if_neg hd] at hcase
          exact leMax_zero_negTop_sumHi md hcase hHiD
      exact max_le hLoU hmd
  have hlo_ge :
      specMinDeltaUp views sizes index ≤
        (match specMinDeltaDown views sizes index with
         | none => specMinDeltaUp views sizes index
         | some md => max (specMinDeltaUp views sizes index) md) := by
    cases specMinDeltaDown views sizes index with
    | none => exact le_refl _
    | some md => exact le_max_left _ _
  have hhi_ge0 : leMax 0
      (minTop (specMaxDeltaDown views sizes index) (specMaxDeltaUp views sizes index)) := by
    refine leMax_zero_minTop ?_ hHiU
    unfold specMaxDeltaDown
    by_cases hd : views.length ≤ index + 1
    · rw [if_pos hd]; trivial
    · rw [if_neg hd]
      exact (leMax_some _ _).mpr (by linarith)
  have ht_lo : (match specMinDeltaDown views sizes index with
       | none => specMinDeltaUp views sizes index
       | some md => max (specMinDeltaUp views sizes index) md) ≤
      specClampedDelta views sizes index delta :=
    le_clampTop delta (leMax_of_nonpos hlo_le_zero hhi_ge0)
  have ht_hi : leMax (specClampedDelta views sizes index delta)
      (minTop (specMaxDeltaDown views sizes index) (specMaxDeltaUp views sizes index)) :=
    leMax_clampTop _ _ _
  refine ⟨le_trans hlo_ge ht_lo, leMax_minTop_right ht_hi, ?_⟩
  intro hd2
  have hd : ¬views.length ≤ index + 1 := by omega
  constructor
  · have h1 : leMax (specClampedDelta views sizes index delta)
        (specMaxDeltaDown views sizes index) := leMax_minTop_left ht_hi
    unfold specMaxDeltaDown at h1
    rw [if_neg hd] at h1
    have := (leMax_some _ _).mp h1
    linarith
  · cases hs : sumHi ((specPairs views sizes).drop (index + 1)) with
    | none => trivial
    | some h =>
      have hcase : specMinDeltaDown views sizes index = some (-h) := by
        unfold specMinDeltaDown
        rw [if_neg hd, hs]
        rfl
      rw [hcase] at ht_lo
      have : -h ≤ specClampedDelta views sizes index delta :=
        le_trans (le_max_right _ _) ht_lo
      exact (leMax_some _ _).mpr (by linarith)

/-- The tentative delta as computed inside `resize` (code side). -/
def codeTentative (views : List IViewItem) (sizes : List ℚ) (n : Nat) (delta : ℚ) : ℚ :=
  clampTop delta
    (match (if (downIdx views.length n).length = 0 then none
            else negTop (sumHi ((downIdx views.length n).map (pairAt views sizes)))) with
     | none => sumLo ((upIdx n).map (pairAt views sizes))
     | some md => max (sumLo ((upIdx n).map (pairAt views sizes))) md)
    (minTop (if (downIdx views.length n).length = 0 then none
             else some (-(sumLo ((downIdx views.length n).map (pairAt views sizes)))))
      (sumHi ((upIdx n).map (pairAt views sizes))))

theorem resize_nat_eq (views : List IViewItem) (sizes : List ℚ) (n : Nat) (delta : ℚ)
    (h : n ≤ views.length) :
    resize views (n : ℤ) delta sizes none none =
      ((downIdx views.length n).zip
          (downPass (upPass (codeTentative views sizes n delta)
              ((upIdx n).map (pairAt views sizes))).1
            ((downIdx views.length n).map (pairAt views sizes)))).foldl
        (fun vs p => setSize vs p.1 p.2)
        (((upIdx n).zip (upPass (codeTentative views sizes n delta)
            ((upIdx n).map (pairAt views sizes))).2).foldl
          (fun vs p => setSize vs p.1 p.2) views) :=
  resize_nat_spec views sizes n delta h

theorem codeTentative_eq_spec (views : List IViewItem) (sizes : List ℚ) (n : Nat)
    (hlen : sizes.length = views.length) (hn : n < views.length) (delta : ℚ) :
    codeTentative views sizes n delta = specClampedDelta views sizes n delta :=
  tentative_eq_spec views sizes n hlen hn delta

/-- C1: for every in-range `resize(index, delta, sizes)` call on a state whose
baseline sizes respect the items' effective bounds, the delta actually applied
on the up side (items `0..index`) is exactly `delta` clamped into
`[max(minDeltaUp, minDeltaDown), min(maxDeltaDown, maxDeltaUp)]`, with the
effective minimum 0 for snap items and the down-side bounds infinite when the
down side is empty; when down-side items exist they absorb its negation. -/
theorem c1_resize_applied_delta (views : List IViewItem) (sizes : List ℚ)
    (index : Nat) (delta : ℚ)
    (hlen : sizes.length = views.length)
    (hidx : index < views.length)
    (hb : ∀ i (h : i < views.length), InBounds views[i].view (sizes.getD i 0)) :
    ((((resize views (index : ℤ) delta sizes none none).map IViewItem.size).take
        (index + 1)).sum
      = (sizes.take (index + 1)).sum + specClampedDelta views sizes index delta) ∧
    (index + 1 < views.length →
      (((resize views (index : ℤ) delta sizes none none).map IViewItem.size).drop
          (index + 1)).sum
        = (sizes.drop (index + 1)).sum - specClampedDelta views sizes index delta) := by
  have heq := resize_nat_eq views sizes index delta (le_of_lt hidx)
  have hts := codeTentative_eq_spec views sizes index hlen hidx delta
  have hbounds := specClampedDelta_bounds views sizes index delta hlen hidx hb
  have hup_mem : ∀ p ∈ (upIdx index).map (pairAt views sizes), InBounds p.1 p.2 :=
    pairs_inbounds hb (fun i hi => by have := mem_upIdx.mp hi; omega)
  have hdn_mem : ∀ p ∈ (downIdx views.length index).map (pairAt views sizes),
      InBounds p.1 p.2 :=
    pairs_inbounds hb (fun i hi => (mem_downIdx.mp hi).2)
  have hsumLo_up : sumLo ((upIdx index).map (pairAt views sizes)) =
      specMinDeltaUp views sizes index := by
    rw [upIdx_map_pairAt views sizes hlen hidx, sumLo_reverse]
    rfl
  have hsumHi_up : sumHi ((upIdx index).map (pairAt views sizes)) =
      specMaxDeltaUp views sizes index := by
    rw [upIdx_map_pairAt views sizes hlen hidx, sumHi_reverse]
    rfl
  have hdownPl_eq : (downIdx views.length index).map (pairAt views sizes) =
      (specPairs views sizes).drop (index + 1) :=
    downIdx_map_pairAt views sizes hlen index
  have hactual : (upPass (codeTentative views sizes index delta)
      ((upIdx index).map (pairAt views sizes))).1 = codeTentative views sizes index delta := by
    rw [upPass_actual _ hup_mem, hsumLo_up, hsumHi_up, hts]
    exact clampTop_eq_self hbounds.1 hbounds.2.1
  have hrs : (resize views (index : ℤ) delta sizes none none).map IViewItem.size =
      ((downIdx views.length index).zip
          (downPass (upPass (codeTentative views sizes index delta)
              ((upIdx index).map (pairAt views sizes))).1
            ((downIdx views.length index).map (pairAt views sizes)))).foldl
        (fun l p => l.set p.1 p.2)
        (((upIdx index).zip (upPass (codeTentative views sizes index delta)
            ((upIdx index).map (pairAt views sizes))).2).foldl
          (fun l p => l.set p.1 p.2) (views.map IViewItem.size)) := by
    rw [heq, foldl_setSize_map_size, foldl_setSize_map_size]
  have hlen_up2 : (upPass (codeTentative views sizes index delta)
      ((upIdx index).map (pairAt views sizes))).2.length = index + 1 := by
    rw [upPass_length, List.length_map, length_upIdx]
  have hlen_dn : (downPass (upPass (codeTentative views sizes index delta)
      ((upIdx index).map (pairAt views sizes))).1
      ((downIdx views.length index).map (pairAt views sizes))).length =
      views.length - (index + 1) := by
    rw [downPass_length, List.length_map, length_downIdx]
  have hlen_mid : ((((upIdx index).zip (upPass (codeTentative views sizes index delta)
      ((upIdx index).map (pairAt views sizes))).2).foldl
        (fun l p => l.set p.1 p.2) (views.map IViewItem.size))).length = views.length := by
    rw [length_foldl_set, List.length_map]
  have hlen_rs : ((resize views (index : ℤ) delta sizes none none).map
      IViewItem.size).length = views.length := by
    rw [hrs, length_foldl_set, length_foldl_set, List.length_map]
  have hfst_dn : (((downIdx views.length index).zip
      (downPass (upPass (codeTentative views sizes index delta)
          ((upIdx index).map (pairAt views sizes))).1
        ((downIdx views.length index).map (pairAt views sizes)))).map Prod.fst) =
      downIdx views.length index :=
    List.map_fst_zip _ _ (by rw [hlen_dn, length_downIdx])
  have hmap_up : (upIdx index).map
      (fun k => ((((upIdx index).zip (upPass (codeTentative views sizes index delta)
          ((upIdx index).map (pairAt views sizes))).2).foldl
            (fun l p => l.set p.1 p.2) (views.map IViewItem.size))).getD k 0) =
      (upPass (codeTentative views sizes index delta)
        ((upIdx index).map (pairAt views sizes))).2 :=
    map_getD_foldl_set_zip (upIdx index) _ _ (nodup_upIdx index)
      (by rw [hlen_up2, length_upIdx])
      (fun k hk => by
        rw [List.length_map]
        have := mem_upIdx.mp hk
        omega)
  have hgetD_mid : ∀ i ∈ upIdx index,
      ((resize views (index : ℤ) delta sizes none none).map IViewItem.size).getD i 0 =
      ((((upIdx index).zip (upPass (codeTentative views sizes index delta)
          ((upIdx index).map (pairAt views sizes))).2).foldl
            (fun l p => l.set p.1 p.2) (views.map IViewItem.size))).getD i 0 := by
    intro i hi
    have hnot : i ∉ (((downIdx views.length index).zip
        (downPass (upPass (codeTentative views sizes index delta)
            ((upIdx index).map (pairAt views sizes))).1
          ((downIdx views.length index).map (pairAt views sizes)))).map Prod.fst) := by
      rw [hfst_dn]
      intro hmem
      have h1 := mem_upIdx.mp hi
      have h2 := (mem_downIdx.mp hmem).1
      omega
    rw [hrs, List.getD_eq_getElem?_getD, List.getD_eq_getElem?_getD,
      getElem?_foldl_set_not_mem hnot]
  have hsnd_up : (((upIdx index).map (pairAt views sizes)).map Prod.snd).sum =
      (sizes.take (index + 1)).sum := by
    rw [List.map_map]
    have : (Prod.snd ∘ pairAt views sizes) = fun i => sizes.getD i 0 := rfl
    rw [this, upIdx, List.map_reverse, List.sum_reverse, ← sum_take_eq_range]
  have hconj1 : (((resize views (index : ℤ) delta sizes none none).map
      IViewItem.size).take (index + 1)).sum
      = (sizes.take (index + 1)).sum + specClampedDelta views sizes index delta := by
    rw [sum_take_eq_range]
    have hrev : ((List.range (index + 1)).map
        (fun i => ((resize views (index : ℤ) delta sizes none none).map
          IViewItem.size).getD i 0)).sum =
        ((upIdx index).map
          (fun i => ((resize views (index : ℤ) delta sizes none none).map
            IViewItem.size).getD i 0)).sum := by
      rw [upIdx, List.map_reverse, List.sum_reverse]
    rw [hrev, List.map_congr_left hgetD_mid, hmap_up, upPass_sum, hsnd_up, hactual, hts]
  refine ⟨hconj1, ?_⟩
  intro hd2
  have hdown_sum : (((resize views (index : ℤ) delta sizes none none).map
      IViewItem.size).drop (index + 1)).sum =
      ((downIdx views.length index).map
        (fun i => ((resize views (index : ℤ) delta sizes none none).map
          IViewItem.size).getD i 0)).sum := by
    rw [sum_drop_eq_range', hlen_rs]
    rfl
  have hmap_dn : (downIdx views.length index).map
      (fun k => ((resize views (index : ℤ) delta sizes none none).map
        IViewItem.size).getD k 0) =
      downPass (upPass (codeTentative views sizes index delta)
          ((upIdx index).map (pairAt views sizes))).1
        ((downIdx views.length index).map (pairAt views sizes)) := by
    rw [hrs]
    exact map_getD_foldl_set_zip (downIdx views.length index) _ _
      (nodup_downIdx _ _) (by rw [hlen_dn, length_downIdx])
      (fun k hk => by
        rw [hlen_mid]
        exact (mem_downIdx.mp hk).2)
  have hsnd_dn : ((((downIdx views.length index).map (pairAt views sizes)).map
      Prod.snd)).sum = (sizes.drop (index + 1)).sum := by
    rw [hdownPl_eq, specPairs, List.map_drop,
      List.map_snd_zip _ _ (by rw [List.length_map, hlen])]
  have hdn_actual : (upPass (-(codeTentative views sizes index delta))
      ((downIdx views.length index).map (pairAt views sizes))).1 =
      -(specClampedDelta views sizes index delta) := by
    rw [upPass_actual _ hdn_mem, hdownPl_eq, hts]
    exact clampTop_eq_self (hbounds.2.2 hd2).1 (hbounds.2.2 hd2).2
  rw [hdown_sum, hmap_dn, downPass_eq_upPass, hactual,
    upPass_sum, hsnd_dn, hdn_actual]
  ring

/-- Witness for C1 at a concrete input (scenario B baseline: two items with
minimum 50, unbounded maximum, baseline 100/100, `resize(0, 30)`). -/
theorem c1_resize_applied_delta_witness :
    (∀ i (h : i < ([⟨⟨50, none, none⟩, 100⟩, ⟨⟨50, none, none⟩, 100⟩] :
        List IViewItem).length),
      InBounds ([⟨⟨50, none, none⟩, 100⟩, ⟨⟨50, none, none⟩, 100⟩] :
        List IViewItem)[i].view (([100, 100] : List ℚ).getD i 0)) ∧
    ((((resize [⟨⟨50, none, none⟩, 100⟩, ⟨⟨50, none, none⟩, 100⟩] ((0 : Nat) : ℤ) 30
          [100, 100] none none).map IViewItem.size).take (0 + 1)).sum
        = (([100, 100] : List ℚ).take (0 + 1)).sum +
          specClampedDelta [⟨⟨50, none, none⟩, 100⟩, ⟨⟨50, none, none⟩, 100⟩]
            [100, 100] 0 30) ∧
    (0 + 1 < ([⟨⟨50, none, none⟩, 100⟩, ⟨⟨50, none, none⟩, 100⟩] :
        List IViewItem).length →
      (((resize [⟨⟨50, none, none⟩, 100⟩, ⟨⟨50, none, none⟩, 100⟩] ((0 : Nat) : ℤ) 30
          [100, 100] none none).map IViewItem.size).drop (0 + 1)).sum
        = (([100, 100] : List ℚ).drop (0 + 1)).sum -
          specClampedDelta [⟨⟨50, none, none⟩, 100⟩, ⟨⟨50, none, none⟩, 100⟩]
            [100, 100] 0 30) :=
  ⟨of_decide_eq_true (by with_unfolding_all rfl),
    c1_resize_applied_delta _ _ 0 30 rfl (by decide)
      (of_decide_eq_true (by with_unfolding_all rfl))⟩

/-- C3: scenario B — two items with minimums 50/50, unbounded maximums, in a
container of total size 200, dragging the sash by +30 from baseline 100/100
yields 130/70; scenario C — with item 1's minimum raised to 90 the same drag
clamps to 110/90. -/
theorem c3_scenarios_b_c :
    resize [⟨⟨50, none, none⟩, 100⟩, ⟨⟨50, none, none⟩, 100⟩] 0 30 [100, 100] none none
      = [⟨⟨50, none, none⟩, 130⟩, ⟨⟨50, none, none⟩, 70⟩] ∧
    resize [⟨⟨50, none, none⟩, 100⟩, ⟨⟨90, none, none⟩, 100⟩] 0 30 [100, 100] none none
      = [⟨⟨50, none, none⟩, 110⟩, ⟨⟨90, none, none⟩, 90⟩] :=
  ⟨of_decide_eq_true (by with_unfolding_all rfl),
    of_decide_eq_true (by with_unfolding_all rfl)⟩

/-- Counterexample to C4: a high-priority index is pushed to the FRONT of its
side's processing order, not to the back.  With up-side order `[2, 1, 0]` and
high-priority `[1]` the computed order is `[1, 2, 0]` — index 1 is first, not
last — and in a 3-item resize the high-priority item 1 absorbs the whole
delta first. -/
theorem c4_counterexample :
    applyPriorities [2, 1, 0] none (some [1]) = [1, 2, 0] ∧
    (applyPriorities [2, 1, 0] none (some [1])).getLast? ≠ some 1 ∧
    resize [⟨⟨0, none, none⟩, 100⟩, ⟨⟨0, none, none⟩, 100⟩, ⟨⟨0, none, none⟩, 100⟩]
        2 30 [100, 100, 100] none (some [1])
      = [⟨⟨0, none, none⟩, 100⟩, ⟨⟨0, none, none⟩, 130⟩, ⟨⟨0, none, none⟩, 100⟩] :=
  ⟨by decide, by decide, of_decide_eq_true (by with_unfolding_all rfl)⟩

/-- C4 amended: an index listed as high-priority is moved to the FRONT of its
side's processing order (it absorbs delta changes first), while an index
listed as low-priority is moved to the BACK (it absorbs last). -/
theorem c4_priority_order_amended (l : List Nat) (lo hi : Nat)
    (hlo : lo ∈ l) (hhi : hi ∈ l) (hne : hi ≠ lo) :
    (applyPriorities l (some [lo]) (some [hi])).head? = some hi ∧
    (applyPriorities l (some [lo]) (some [hi])).getLast? = some lo := by
  unfold applyPriorities
  simp only [List.foldl_cons, List.foldl_nil]
  rw [pushToStart, if_pos hhi]
  have hlo2 : lo ∈ hi :: l.erase hi :=
    List.mem_cons_of_mem _ ((List.mem_erase_of_ne (fun h => hne h.symm)).mpr hlo)
  rw [pushToEnd, if_pos hlo2]
  have herase : (hi :: l.erase hi).erase lo = hi :: (l.erase hi).erase lo :=
    List.erase_cons_tail (by simpa using hne)
  constructor
  · rw [herase, List.cons_append, List.head?_cons]
  · exact List.getLast?_concat _

/-- Witness for the amended C4 at a concrete input. -/
theorem c4_priority_order_amended_witness :
    ((0 ∈ [2, 1, 0]) ∧ (1 ∈ [2, 1, 0]) ∧ (1 : Nat) ≠ 0) ∧
    ((applyPriorities [2, 1, 0] (some [0]) (some [1])).head? = some 1 ∧
      (applyPriorities [2, 1, 0] (some [0]) (some [1])).getLast? = some 0) :=
  ⟨by decide, c4_priority_order_amended [2, 1, 0] 0 1 (by decide) (by decide) (by decide)⟩

/-! ## No-binding head absorption and write-back pointwise lemmas (for C5) -/

theorem upPass_head_absorb {v : IBaseView} {s d : ℚ} {t : List (IBaseView × ℚ)}
    (hv : InBounds v (s + d)) (ht : ∀ p ∈ t, InBounds p.1 p.2) :
    upPass d ((v, s) :: t) = (d, (s + d) :: t.map Prod.snd) := by
  have hcl : clampView v (s + d) = s + d := clampView_eq_self hv
  simp only [upPass, hcl, add_sub_cancel_left, sub_self, upPass_zero ht]
  rw [add_zero]

theorem downPass_head_absorb {v : IBaseView} {s d : ℚ} {t : List (IBaseView × ℚ)}
    (hv : InBounds v (s - d)) (ht : ∀ p ∈ t, InBounds p.1 p.2) :
    downPass d ((v, s) :: t) = (s - d) :: t.map Prod.snd := by
  have hcl : clampView v (s - d) = s - d := clampView_eq_self hv
  have hz : d + (s - d - s) = 0 := by ring
  simp only [downPass, hcl, hz, downPass_eq_upPass, neg_zero, upPass_zero ht]

theorem sumHi_cons_some {v : IBaseView} {s : ℚ} {t : List (IBaseView × ℚ)} {h : ℚ}
    (hs : sumHi ((v, s) :: t) = some h) :
    ∃ m r, v.maximumSize = some m ∧ sumHi t = some r ∧ h = m - s + r := by
  rw [sumHi] at hs
  cases hm : v.maximumSize with
  | none => rw [hm] at hs; simp [subTop, addTop] at hs
  | some m =>
    cases hr : sumHi t with
    | none => rw [hm, hr] at hs; simp [subTop, addTop] at hs
    | some r =>
      rw [hm, hr] at hs
      refine ⟨m, r, rfl, rfl, ?_⟩
      have : some (m - s + r) = some h := hs
      simpa using this.symm

theorem foldl_set_zip_map (keys : List Nat) (g : Nat → ℚ) (l : List ℚ) :
    (keys.zip (keys.map g)).foldl (fun l p => l.set p.1 p.2) l =
      keys.foldl (fun l k => l.set k (g k)) l := by
  induction keys generalizing l with
  | nil => rfl
  | cons k t ih => rw [List.map_cons, List.zip_cons_cons, List.foldl_cons, List.foldl_cons, ih]

theorem getElem?_foldl_set_fun (keys : List Nat) (g : Nat → ℚ) (l : List ℚ) (q : Nat) :
    (keys.foldl (fun l k => l.set k (g k)) l)[q]? =
      if q ∈ keys ∧ q < l.length then some (g q) else l[q]? := by
  induction keys generalizing l with
  | nil => simp
  | cons k t ih =>
    rw [List.foldl_cons, ih, List.length_set]
    by_cases hq : q ∈ t ∧ q < l.length
    · rw [if_pos hq, if_pos ⟨List.mem_cons_of_mem _ hq.1, hq.2⟩]
    · rw [if_neg hq, List.getElem?_set]
      by_cases hk : k = q
      · subst hk
        by_cases hlt : k < l.length
        · rw [if_pos rfl, if_pos hlt, if_pos ⟨List.mem_cons_self _ _, hlt⟩]
        · rw [if_pos rfl, if_neg hlt, if_neg (fun hc => hlt hc.2),
            List.getElem?_eq_none_iff.mpr (by omega)]
      · rw [if_neg hk, if_neg (fun hc => hq ⟨(List.mem_cons.mp hc.1).resolve_left
          (fun he => hk he.symm), hc.2⟩)]

theorem leMax_minTop {x : ℚ} {a b : Option ℚ} (ha : leMax x a) (hb : leMax x b) :
    leMax x (minTop a b) := by
  cases a <;> cases b <;> simp_all [minTop, leMax]

theorem length_foldl_set_fun (keys : List Nat) (g : Nat → ℚ) (l : List ℚ) :
    (keys.foldl (fun l k => l.set k (g k)) l).length = l.length := by
  induction keys generalizing l with
  | nil => rfl
  | cons k t ih => rw [List.foldl_cons, ih, List.length_set]

theorem getElem?_setSize (vs : List IViewItem) (i : Nat) (s : ℚ) (q : Nat) :
    (setSize vs i s)[q]? =
      if i = q then (vs[q]?).map (fun it => { it with size := s }) else vs[q]? := by
  unfold setSize
  cases h : vs[i]? with
  | none =>
    by_cases hq : i = q
    · subst hq
      rw [if_pos rfl, h]
      rfl
    · rw [if_neg hq]
  | some it =>
    have hi : i < vs.length := by
      by_contra hc
      rw [List.getElem?_eq_none_iff.mpr (by omega)] at h
      exact Option.noConfusion h
    rw [List.getElem?_set]
    by_cases hq : i = q
    · subst hq
      rw [if_pos rfl, if_pos rfl, if_pos hi, h]
      rfl
    · rw [if_neg hq, if_neg hq]

theorem itemAt_setSize_self {vs : List IViewItem} {i : Nat} (s : ℚ) (h : i < vs.length) :
    itemAt (setSize vs i s) i = { itemAt vs i with size := s } := by
  rw [itemAt, itemAt, List.getD_eq_getElem?_getD, List.getD_eq_getElem?_getD,
    getElem?_setSize, if_pos rfl, List.getElem?_eq_getElem h]
  rfl

theorem itemAt_setSize_ne {vs : List IViewItem} {i q : Nat} (s : ℚ) (h : i ≠ q) :
    itemAt (setSize vs i s) q = itemAt vs q := by
  rw [itemAt, itemAt, List.getD_eq_getElem?_getD, List.getD_eq_getElem?_getD,
    getElem?_setSize, if_neg h]

theorem items_ext : ∀ {a b : List IViewItem},
    a.map IViewItem.view = b.map IViewItem.view →
    a.map IViewItem.size = b.map IViewItem.size → a = b := by
  intro a
  induction a with
  | nil => intro b hv _; cases b with
    | nil => rfl
    | cons x xs => exact absurd hv (by simp)
  | cons x xs ih =>
    intro b hv hs
    cases b with
    | nil => exact absurd hv (by simp)
    | cons y ys =>
      simp only [List.map_cons, List.cons.injEq] at hv hs
      have hx : x = y := by
        cases x; cases y
        simp_all
      rw [hx, ih hv.2 hs.2]

theorem hb_indexed {views : List IViewItem} (hb : ∀ it ∈ views, InBounds it.view it.size) :
    ∀ i (h : i < views.length), InBounds views[i].view ((views.map IViewItem.size).getD i 0) := by
  intro i h
  have hg : (views.map IViewItem.size).getD i 0 = views[i].size := by
    rw [List.getD_eq_getElem?_getD, List.getElem?_map, List.getElem?_eq_getElem h]
    rfl
  rw [hg]
  exact hb views[i] (List.getElem_mem h)

theorem pairAt_szs {views : List IViewItem} {i : Nat} (h : i < views.length) :
    pairAt views (views.map IViewItem.size) i =
      ((itemAt views i).view, (itemAt views i).size) := by
  rw [pairAt, itemAt_lt h]
  have hg : (views.map IViewItem.size).getD i 0 = views[i].size := by
    rw [List.getD_eq_getElem?_getD, List.getElem?_map, List.getElem?_eq_getElem h]
    rfl
  rw [hg]

theorem upIdx_cons (n : Nat) : upIdx n = n :: (List.range n).reverse := by
  rw [upIdx, List.range_succ, List.reverse_append]
  rfl

theorem downIdx_cons {len n : Nat} (h : n + 1 < len) :
    downIdx len n = (n + 1) :: List.range' (n + 2) (len - (n + 2)) := by
  rw [downIdx]
  have h1 : len - (n + 1) = (len - (n + 2)) + 1 := by omega
  rw [h1]
  rfl

theorem codeTentative_slack (views : List IViewItem) (n : Nat) (delta : ℚ)
    (hidx : n + 1 < views.length)
    (hb : ∀ it ∈ views, InBounds it.view it.size)
    (hupSlack : InBounds (itemAt views n).view ((itemAt views n).size + delta))
    (hdnSlack : InBounds (itemAt views (n + 1)).view ((itemAt views (n + 1)).size - delta)) :
    codeTentative views (views.map IViewItem.size) n delta = delta := by
  have hn : n < views.length := by omega
  have hb' := hb_indexed hb
  have hupPl : (upIdx n).map (pairAt views (views.map IViewItem.size)) =
      ((itemAt views n).view, (itemAt views n).size) ::
        ((List.range n).reverse.map (pairAt views (views.map IViewItem.size))) := by
    rw [upIdx_cons, List.map_cons, pairAt_szs hn]
  have hdnPl : (downIdx views.length n).map (pairAt views (views.map IViewItem.size)) =
      ((itemAt views (n + 1)).view, (itemAt views (n + 1)).size) ::
        ((List.range' (n + 2) (views.length - (n + 2))).map
          (pairAt views (views.map IViewItem.size))) := by
    rw [downIdx_cons hidx, List.map_cons, pairAt_szs hidx]
  have hupT : ∀ p ∈ (List.range n).reverse.map (pairAt views (views.map IViewItem.size)),
      InBounds p.1 p.2 :=
    pairs_inbounds hb' (fun i hi => by
      rw [List.mem_reverse] at hi
      have := List.mem_range.mp hi
      omega)
  have hdnT : ∀ p ∈ (List.range' (n + 2) (views.length - (n + 2))).map
      (pairAt views (views.map IViewItem.size)), InBounds p.1 p.2 :=
    pairs_inbounds hb' (fun i hi => by
      have := List.mem_range'_1.mp hi
      omega)
  unfold codeTentative
  have hcond : ¬((downIdx views.length n).length = 0) := by
    rw [length_downIdx]
    omega
  rw [if_neg hcond, if_neg hcond, hupPl, hdnPl]
  apply clampTop_eq_self
  · have hupLo : sumLo (((itemAt views n).view, (itemAt views n).size) ::
        ((List.range n).reverse.map (pairAt views (views.map IViewItem.size)))) ≤ delta := by
      simp only [sumLo]
      have h1 := sumLo_nonpos hupT
      have h2 := hupSlack.1
      linarith
    cases hmd : negTop (sumHi (((itemAt views (n + 1)).view, (itemAt views (n + 1)).size) ::
        ((List.range' (n + 2) (views.length - (n + 2))).map
          (pairAt views (views.map IViewItem.size))))) with
    | none => exact hupLo
    | some md =>
      refine max_le hupLo ?_
      cases hsh : sumHi (((itemAt views (n + 1)).view, (itemAt views (n + 1)).size) ::
          ((List.range' (n + 2) (views.length - (n + 2))).map
            (pairAt views (views.map IViewItem.size)))) with
      | none =>
        rw [hsh] at hmd
        exact absurd hmd (by simp [negTop])
      | some h =>
        rw [hsh] at hmd
        have hmd' : md = -h := by simpa [negTop] using hmd.symm
        obtain ⟨m, r, hm, hr, hh⟩ := sumHi_cons_some hsh
        have hr0 : 0 ≤ r := by
          have := leMax_zero_sumHi hdnT
          rw [hr] at this
          exact this
        have hsm : (itemAt views (n + 1)).size - delta ≤ m := by
          have := hdnSlack.2
          rw [hm] at this
          exact this
        rw [hmd', hh]
        linarith
  · refine leMax_minTop ?_ ?_
    · refine (leMax_some _ _).mpr ?_
      simp only [sumLo]
      have h1 := sumLo_nonpos hdnT
      have h2 := hdnSlack.1
      linarith
    · cases hsh : sumHi (((itemAt views n).view, (itemAt views n).size) ::
          ((List.range n).reverse.map (pairAt views (views.map IViewItem.size)))) with
      | none => trivial
      | some H =>
        obtain ⟨m, r, hm, hr, hh⟩ := sumHi_cons_some hsh
        have hr0 : 0 ≤ r := by
          have := leMax_zero_sumHi hupT
          rw [hr] at this
          exact this
        have hsm : (itemAt views n).size + delta ≤ m := by
          have := hupSlack.2
          rw [hm] at this
          exact this
        refine (leMax_some _ _).mpr ?_
        rw [hh]
        linarith

theorem resizeCur_slack (views : List IViewItem) (n : Nat) (delta : ℚ)
    (hidx : n + 1 < views.length)
    (hb : ∀ it ∈ views, InBounds it.view it.size)
    (hupSlack : InBounds (itemAt views n).view ((itemAt views n).size + delta))
    (hdnSlack : InBounds (itemAt views (n + 1)).view ((itemAt views (n + 1)).size - delta)) :
    resizeCur views (n : ℤ) delta none none =
      setSize (setSize views n ((itemAt views n).size + delta)) (n + 1)
        ((itemAt views (n + 1)).size - delta) := by
  have hn : n < views.length := by omega
  have hb' := hb_indexed hb
  have ht := codeTentative_slack views n delta hidx hb hupSlack hdnSlack
  have hupPl : (upIdx n).map (pairAt views (views.map IViewItem.size)) =
      ((itemAt views n).view, (itemAt views n).size) ::
        ((List.range n).reverse.map (pairAt views (views.map IViewItem.size))) := by
    rw [upIdx_cons, List.map_cons, pairAt_szs hn]
  have hdnPl : (downIdx views.length n).map (pairAt views (views.map IViewItem.size)) =
      ((itemAt views (n + 1)).view, (itemAt views (n + 1)).size) ::
        ((List.range' (n + 2) (views.length - (n + 2))).map
          (pairAt views (views.map IViewItem.size))) := by
    rw [downIdx_cons hidx, List.map_cons, pairAt_szs hidx]
  have hupT : ∀ p ∈ (List.range n).reverse.map (pairAt views (views.map IViewItem.size)),
      InBounds p.1 p.2 :=
    pairs_inbounds hb' (fun i hi => by
      rw [List.mem_reverse] at hi
      have := List.mem_range.mp hi
      omega)
  have hdnT : ∀ p ∈ (List.range' (n + 2) (views.length - (n + 2))).map
      (pairAt views (views.map IViewItem.size)), InBounds p.1 p.2 :=
    pairs_inbounds hb' (fun i hi => by
      have := List.mem_range'_1.mp hi
      omega)
  have heq := resize_nat_eq views (views.map IViewItem.size) n delta (le_of_lt hn)
  rw [ht, hupPl, hdnPl, upPass_head_absorb hupSlack hupT,
    downPass_head_absorb hdnSlack hdnT] at heq
  have hcur : resizeCur views (n : ℤ) delta none none =
      resize views (n : ℤ) delta (views.map IViewItem.size) none none := rfl
  rw [hcur, heq]
  have hvals_up : ((itemAt views n).size + delta) ::
      (((List.range n).reverse.map (pairAt views (views.map IViewItem.size))).map Prod.snd) =
      (upIdx n).map (fun i => if i = n then (itemAt views n).size + delta
        else (views.map IViewItem.size).getD i 0) := by
    rw [upIdx_cons, List.map_cons, if_pos rfl, List.map_map]
    congr 1
    refine (List.map_congr_left ?_).symm
    intro i hi
    have hilt : i < n := by
      rw [List.mem_reverse] at hi
      exact List.mem_range.mp hi
    rw [if_neg (by omega)]
    rfl
  have hvals_dn : ((itemAt views (n + 1)).size - delta) ::
      (((List.range' (n + 2) (views.length - (n + 2))).map
        (pairAt views (views.map IViewItem.size))).map Prod.snd) =
      (downIdx views.length n).map
        (fun i => if i = n + 1 then (itemAt views (n + 1)).size - delta
          else (views.map IViewItem.size).getD i 0) := by
    rw [downIdx_cons hidx, List.map_cons, if_pos rfl, List.map_map]
    congr 1
    refine (List.map_congr_left ?_).symm
    intro i hi
    have hilt := List.mem_range'_1.mp hi
    rw [if_neg (by omega)]
    rfl
  apply items_ext
  · rw [foldl_setSize_map_view, foldl_setSize_map_view, setSize_map_view, setSize_map_view]
  · rw [foldl_setSize_map_size, foldl_setSize_map_size, setSize_map_size, setSize_map_size,
      hvals_up, hvals_dn, foldl_set_zip_map, foldl_set_zip_map]
    apply List.ext_getElem?
    intro q
    rw [getElem?_foldl_set_fun, length_foldl_set_fun, getElem?_foldl_set_fun,
      List.getElem?_set, List.getElem?_set, List.length_set, List.length_map]
    have hgd : ∀ j, j < views.length → (views.map IViewItem.size)[j]? =
        some ((views.map IViewItem.size).getD j 0) := by
      intro j hj
      rw [List.getD_eq_getElem?_getD,
        List.getElem?_eq_getElem (show j < (views.map IViewItem.size).length by
          rw [List.length_map]; exact hj)]
      rfl
    simp only [mem_upIdx, mem_downIdx]
    by_cases hq2 : q < views.length
    · by_cases hqn1 : q = n + 1
      · subst hqn1
        rw [if_pos ⟨⟨le_refl _, hidx⟩, hq2⟩, if_pos rfl, if_pos rfl, if_pos (by omega)]
      · by_cases hqn : q = n
        · subst hqn
          rw [if_neg (by omega), if_pos ⟨by omega, hq2⟩, if_pos rfl,
            if_neg (by omega), if_pos rfl, if_pos (by omega)]
        · by_cases hqle : q ≤ n
          · rw [if_neg (by omega), if_pos ⟨by omega, hq2⟩, if_neg hqn,
              if_neg (by omega), if_neg (by omega), hgd q hq2]
          · rw [if_pos ⟨⟨by omega, hq2⟩, hq2⟩, if_neg hqn1,
              if_neg (by omega), if_neg (by omega), hgd q hq2]
    · rw [if_neg (fun hc => hq2 hc.2), if_neg (fun hc => hq2 hc.2),
        if_neg (by omega), if_neg (by omega)]

/-- C5: with ample slack on both sides of `index` (no per-item clamp binds in
either pass), `resize(index, delta)` followed by `resize(index, -delta)`
restores every item's size exactly. -/
theorem c5_resize_inverse (views : List IViewItem) (n : Nat) (delta : ℚ)
    (hidx : n + 1 < views.length)
    (hb : ∀ it ∈ views, InBounds it.view it.size)
    (hupSlack : InBounds (itemAt views n).view ((itemAt views n).size + delta))
    (hdnSlack : InBounds (itemAt views (n + 1)).view ((itemAt views (n + 1)).size - delta)) :
    resizeCur (resizeCur views (n : ℤ) delta none none) (n : ℤ) (-delta) none none = views := by
  have hn : n < views.length := by omega
  have h1 := resizeCur_slack views n delta hidx hb hupSlack hdnSlack
  rw [h1]
  have hlen0 : (setSize views n ((itemAt views n).size + delta)).length = views.length :=
    length_setSize _ _ _
  have hlen1 : (setSize (setSize views n ((itemAt views n).size + delta)) (n + 1)
      ((itemAt views (n + 1)).size - delta)).length = views.length := by
    rw [length_setSize, hlen0]
  have hitem_n : itemAt (setSize (setSize views n ((itemAt views n).size + delta)) (n + 1)
      ((itemAt views (n + 1)).size - delta)) n =
      { itemAt views n with size := (itemAt views n).size + delta } := by
    rw [itemAt_setSize_ne _ (by omega), itemAt_setSize_self _ hn]
  have hitem_n1 : itemAt (setSize (setSize views n ((itemAt views n).size + delta)) (n + 1)
      ((itemAt views (n + 1)).size - delta)) (n + 1) =
      { itemAt views (n + 1) with size := (itemAt views (n + 1)).size - delta } := by
    rw [itemAt_setSize_self _ (by rw [hlen0]; exact hidx), itemAt_setSize_ne _ (by omega)]
  have hbase_n : InBounds (itemAt views n).view (itemAt views n).size := by
    rw [itemAt_lt hn]
    exact hb _ (List.getElem_mem hn)
  have hbase_n1 : InBounds (itemAt views (n + 1)).view (itemAt views (n + 1)).size := by
    rw [itemAt_lt hidx]
    exact hb _ (List.getElem_mem hidx)
  have hb2 : ∀ it ∈ setSize (setSize views n ((itemAt views n).size + delta)) (n + 1)
      ((itemAt views (n + 1)).size - delta), InBounds it.view it.size := by
    intro it hit
    rcases List.mem_iff_getElem?.mp hit with ⟨q, hq⟩
    rw [getElem?_setSize, getElem?_setSize] at hq
    by_cases hq1 : n + 1 = q
    · subst hq1
      rw [if_pos rfl, if_neg (by omega), List.getElem?_eq_getElem hidx] at hq
      have : it = { views[n + 1] with size := (itemAt views (n + 1)).size - delta } := by
        simpa using hq.symm
      rw [this]
      show InBounds views[n + 1].view ((itemAt views (n + 1)).size - delta)
      rw [itemAt_lt hidx]
      have h := hdnSlack
      rw [itemAt_lt hidx] at h
      exact h
    · rw [if_neg hq1] at hq
      by_cases hq2 : n = q
      · subst hq2
        rw [if_pos rfl, List.getElem?_eq_getElem hn] at hq
        have : it = { views[n] with size := (itemAt views n).size + delta } := by
          simpa using hq.symm
        rw [this]
        show InBounds views[n].view ((itemAt views n).size + delta)
        rw [itemAt_lt hn]
        have h := hupSlack
        rw [itemAt_lt hn] at h
        exact h
      · rw [if_neg hq2] at hq
        have hql : q < views.length := by
          by_contra hc
          rw [List.getElem?_eq_none_iff.mpr (by omega)] at hq
          exact Option.noConfusion hq
        rw [List.getElem?_eq_getElem hql] at hq
        have : it = views[q] := by simpa using hq.symm
        rw [this]
        exact hb _ (List.getElem_mem hql)
  have hupSlack2 : InBounds (itemAt (setSize (setSize views n
      ((itemAt views n).size + delta)) (n + 1)
      ((itemAt views (n + 1)).size - delta)) n).view
      ((itemAt (setSize (setSize views n ((itemAt views n).size + delta)) (n + 1)
        ((itemAt views (n + 1)).size - delta)) n).size + -delta) := by
    rw [hitem_n]
    show InBounds (itemAt views n).view ((itemAt views n).size + delta + -delta)
    rw [show (itemAt views n).size + delta + -delta = (itemAt views n).size by ring]
    exact hbase_n
  have hdnSlack2 : InBounds (itemAt (setSize (setSize views n
      ((itemAt views n).size + delta)) (n + 1)
      ((itemAt views (n + 1)).size - delta)) (n + 1)).view
      ((itemAt (setSize (setSize views n ((itemAt views n).size + delta)) (n + 1)
        ((itemAt views (n + 1)).size - delta)) (n + 1)).size - -delta) := by
    rw [hitem_n1]
    show InBounds (itemAt views (n + 1)).view ((itemAt views (n + 1)).size - delta - -delta)
    rw [show (itemAt views (n + 1)).size - delta - -delta = (itemAt views (n + 1)).size by ring]
    exact hbase_n1
  rw [resizeCur_slack _ n (-delta) (by rw [hlen1]; exact hidx) hb2 hupSlack2 hdnSlack2,
    hitem_n, hitem_n1]
  show setSize (setSize _ n ((itemAt views n).size + delta + -delta)) (n + 1)
      ((itemAt views (n + 1)).size - delta - -delta) = views
  rw [show (itemAt views n).size + delta + -delta = (itemAt views n).size by ring,
    show (itemAt views (n + 1)).size - delta - -delta = (itemAt views (n + 1)).size by ring]
  apply items_ext
  · rw [setSize_map_view, setSize_map_view, setSize_map_view, setSize_map_view]
  · rw [setSize_map_size, setSize_map_size, setSize_map_size, setSize_map_size]
    apply List.ext_getElem?
    intro q
    rw [List.getElem?_set, List.getElem?_set, List.getElem?_set, List.getElem?_set]
    simp only [List.length_set, List.length_map]
    have hgd : ∀ j, j < views.length →
        (views.map IViewItem.size)[j]? = some (itemAt views j).size := by
      intro j hj
      rw [List.getElem?_eq_getElem (show j < (views.map IViewItem.size).length by
        rw [List.length_map]; exact hj), itemAt_lt hj]
      simp
    by_cases hq1 : n + 1 = q
    · rw [if_pos hq1, if_pos (by omega), ← hq1, hgd (n + 1) hidx]
    · rw [if_neg hq1]
      by_cases hq2 : n = q
      · rw [if_pos hq2, if_pos (by omega), ← hq2, hgd n hn]
      · rw [if_neg hq2, if_neg hq1, if_neg hq2]

/-- Witness for C5 at a concrete input. -/
theorem c5_resize_inverse_witness :
    ((0 + 1 < ([⟨⟨0, none, none⟩, 100⟩, ⟨⟨0, none, none⟩, 100⟩] : List IViewItem).length) ∧
      (∀ it ∈ ([⟨⟨0, none, none⟩, 100⟩, ⟨⟨0, none, none⟩, 100⟩] : List IViewItem),
        InBounds it.view it.size) ∧
      InBounds (itemAt [⟨⟨0, none, none⟩, 100⟩, ⟨⟨0, none, none⟩, 100⟩] 0).view
        ((itemAt [⟨⟨0, none, none⟩, 100⟩, ⟨⟨0, none, none⟩, 100⟩] 0).size + 30) ∧
      InBounds (itemAt [⟨⟨0, none, none⟩, 100⟩, ⟨⟨0, none, none⟩, 100⟩] (0 + 1)).view
        ((itemAt [⟨⟨0, none, none⟩, 100⟩, ⟨⟨0, none, none⟩, 100⟩] (0 + 1)).size - 30)) ∧
    resizeCur (resizeCur [⟨⟨0, none, none⟩, 100⟩, ⟨⟨0, none, none⟩, 100⟩]
        ((0 : Nat) : ℤ) 30 none none) ((0 : Nat) : ℤ) (-30) none none =
      [⟨⟨0, none, none⟩, 100⟩, ⟨⟨0, none, none⟩, 100⟩] :=
  ⟨⟨by decide, of_decide_eq_true (by with_unfolding_all rfl),
      of_decide_eq_true (by with_unfolding_all rfl),
      of_decide_eq_true (by with_unfolding_all rfl)⟩,
    c5_resize_inverse _ 0 30 (by decide)
      (of_decide_eq_true (by with_unfolding_all rfl))
      (of_decide_eq_true (by with_unfolding_all rfl))
      (of_decide_eq_true (by with_unfolding_all rfl))⟩

/-! ## Content-sum lemmas for layout (C2) -/

/-- Sum of the effective minimums of a list of items. -/
def totalEffMin (vs : List IBaseView) : ℚ := (vs.map effMin).sum

/-- Sum of the maximums of a list of items (`none` once any is unbounded). -/
def totalMax (vs : List IBaseView) : Option ℚ :=
  vs.foldl (fun r v => addTop r v.maximumSize) (some 0)

theorem foldl_addTop_max (l : List IBaseView) (acc : Option ℚ) :
    l.foldl (fun r v => addTop r v.maximumSize) acc = addTop acc (totalMax l) := by
  induction l generalizing acc with
  | nil => rw [totalMax, List.foldl_nil, List.foldl_nil, addTop_zero_right]
  | cons v t ih =>
    rw [List.foldl_cons, ih]
    conv_rhs => rw [totalMax, List.foldl_cons]
    rw [ih (addTop (some 0) v.maximumSize), addTop_zero_left, addTop_assoc]

theorem totalMax_cons (v : IBaseView) (t : List IBaseView) :
    totalMax (v :: t) = addTop v.maximumSize (totalMax t) := by
  rw [totalMax, List.foldl_cons, foldl_addTop_max, addTop_zero_left]

theorem sumLo_items (l : List IViewItem) :
    sumLo (pairsOfItems l) = totalEffMin (l.map IViewItem.view) - contentOf l := by
  induction l with
  | nil => simp [pairsOfItems, sumLo, totalEffMin, contentOf]
  | cons it t ih =>
    simp only [pairsOfItems, List.map_cons, sumLo, totalEffMin, contentOf,
      List.sum_cons] at *
    rw [ih]
    ring

theorem sumHi_items (l : List IViewItem) :
    sumHi (pairsOfItems l) = subTop (totalMax (l.map IViewItem.view)) (contentOf l) := by
  induction l with
  | nil => simp [pairsOfItems, sumHi, totalMax, subTop, contentOf]
  | cons it t ih =>
    rw [pairsOfItems, List.map_cons, sumHi, List.map_cons, totalMax_cons]
    have : sumHi (pairsOfItems t) = subTop (totalMax (t.map IViewItem.view)) (contentOf t) := ih
    rw [show (List.map (fun it => (it.view, it.size)) t) = pairsOfItems t from rfl, this]
    cases it.view.maximumSize <;> cases totalMax (t.map IViewItem.view) <;>
      simp [addTop, subTop, contentOf] <;> ring

theorem clampView_inBounds {v : IBaseView} (hwf : WF v) (x : ℚ) :
    InBounds v (clampView v x) :=
  ⟨le_clampTop x hwf, leMax_clampTop _ _ _⟩

theorem contentOf_distributeEmptySpace (sv : SplitView)
    (hb : ∀ it ∈ sv.views, InBounds it.view it.size) :
    contentOf (distributeEmptySpace sv).views =
      contentOf sv.views + clampTop (sv.size - contentOf sv.views)
        (sumLo (pairsOfItems sv.views)) (sumHi (pairsOfItems sv.views)) := by
  have hrev : ∀ it ∈ sv.views.reverse, InBounds it.view it.size := by
    intro it hit
    exact hb it (List.mem_reverse.mp hit)
  have h1 : contentOf (distributeEmptySpace sv).views =
      ((desAux (sv.size - contentOf sv.views) sv.views.reverse).map IViewItem.size).sum := by
    rw [distributeEmptySpace, contentOf, List.map_reverse, List.sum_reverse]
  rw [h1, desAux_sum _ hrev]
  have h2 : (sv.views.reverse.map IViewItem.size).sum = contentOf sv.views := by
    rw [List.map_reverse, List.sum_reverse, contentOf]
  have h3 : pairsOfItems sv.views.reverse = (pairsOfItems sv.views).reverse := by
    rw [pairsOfItems, pairsOfItems, List.map_reverse]
  rw [h2, h3, sumLo_reverse, sumHi_reverse]

/-- Counterexample to C2 as stated: one item with finite minimum 0 and finite
maximum 50, saved proportion 1, `layout(100, 0)`.  The allocated sum is 50,
not 100, although the starvation condition `total < sum of minimums` does not
hold (0 ≤ 100): the claim misses the symmetric over-capacity exception. -/
theorem c2_counterexample :
    (layout ⟨[⟨⟨0, some 50, none⟩, 0⟩], 0, 0, 0, some 1, some [1]⟩ 100 0).map
        (fun sv => contentOf sv.views) = some 50 ∧
    (50 : ℚ) ≠ 100 ∧
    minimumSize ⟨[⟨⟨0, some 50, none⟩, 0⟩], 0, 0, 0, some 1, some [1]⟩ = 0 ∧
    ¬((100 : ℚ) < 0) :=
  ⟨of_decide_eq_true (by with_unfolding_all rfl),
    of_decide_eq_true (by with_unfolding_all rfl),
    of_decide_eq_true (by with_unfolding_all rfl),
    of_decide_eq_true (by with_unfolding_all rfl)⟩

theorem layout_eq_some (sv : SplitView) (size orthogonalSize : ℚ) (props : List ℚ)
    (hprops : sv.proportions = some props)
    (hcover : sv.views.length ≤ props.length) :
    layout sv size orthogonalSize = some (layoutViews (distributeEmptySpace
      { sv with size := size, orthogonalSize := orthogonalSize, views := (sv.views.enum.map (fun p => { p.2 with size := clampView p.2.view (jsRound (props.getD p.1 0 * size)) })) })) := by
  obtain ⟨vs, sa, sz, os, cs, pr⟩ := sv
  have h : pr = some props := hprops
  subst h
  show (if props.length < vs.length then none
    else some (layoutViews (distributeEmptySpace
      ⟨(vs.enum.map (fun p => { p.2 with size := clampView p.2.view (jsRound (props.getD p.1 0 * size)) })), sa, size, orthogonalSize, cs, some props⟩))) = _
  exact if_neg (not_lt.mpr hcover)

/-- C2 amended: when a proportions snapshot is present and covers every item,
`layout(total, orthogonal)` completes with rational sizes and their sum equals
`total` exactly whenever `sum of effective minimums ≤ total` and
`total ≤ sum of maximums` (the latter vacuous when any maximum is unbounded);
below the first bound (starvation) or above the second the sum falls short,
and without such a snapshot the call throws or NaN-contaminates the sizes. -/
theorem c2_layout_sum_amended (sv : SplitView) (total orth : ℚ) (props : List ℚ)
    (hwf : ∀ it ∈ sv.views, WF it.view)
    (hprops : sv.proportions = some props)
    (hcover : sv.views.length ≤ props.length)
    (hlo : totalEffMin (sv.views.map IViewItem.view) ≤ total)
    (hhi : ∀ M, totalMax (sv.views.map IViewItem.view) = some M → total ≤ M) :
    ∃ out, layout sv total orth = some out ∧ contentOf out.views = total := by
  set views1 := sv.views.enum.map (fun p =>
    { p.2 with
      size := clampView p.2.view (jsRound (props.getD p.1 0 * total)) })
    with hviews1
  have hmem_enum : ∀ p ∈ sv.views.enum, p.2 ∈ sv.views := by
    intro p hp
    rcases List.mem_iff_getElem.mp hp with ⟨j, hj, rfl⟩
    rw [List.getElem_enum]
    exact List.getElem_mem (by simpa using hj)
  have hb1 : ∀ it ∈ views1, InBounds it.view it.size := by
    intro it hit
    rcases List.mem_map.mp hit with ⟨p, hp, rfl⟩
    exact clampView_inBounds (hwf p.2 (hmem_enum p hp)) _
  have hview1 : views1.map IViewItem.view = sv.views.map IViewItem.view := by
    rw [hviews1, List.map_map]
    rw [show (IViewItem.view ∘ fun p : Nat × IViewItem =>
      { p.2 with
        size := clampView p.2.view (jsRound (props.getD p.1 0 * total)) }) =
      (IViewItem.view ∘ Prod.snd) from rfl]
    rw [← List.map_map, List.enum_map_snd]
  have hdes : contentOf (distributeEmptySpace
      { sv with size := total, orthogonalSize := orth, views := views1 }).views =
      contentOf views1 + clampTop (total - contentOf views1)
        (sumLo (pairsOfItems views1)) (sumHi (pairsOfItems views1)) :=
    contentOf_distributeEmptySpace _ hb1
  refine ⟨layoutViews (distributeEmptySpace { sv with size := total, orthogonalSize := orth, views := views1 }), layout_eq_some sv total orth props hprops hcover, ?_⟩
  have hgoal : contentOf (layoutViews (distributeEmptySpace
      { sv with size := total, orthogonalSize := orth, views := views1 })).views
      = contentOf (distributeEmptySpace
      { sv with size := total, orthogonalSize := orth, views := views1 }).views := rfl
  rw [hgoal, hdes, sumLo_items, sumHi_items, hview1]
  have hc : clampTop (total - contentOf views1)
      (totalEffMin (sv.views.map IViewItem.view) - contentOf views1)
      (subTop (totalMax (sv.views.map IViewItem.view)) (contentOf views1)) =
      total - contentOf views1 := by
    apply clampTop_eq_self
    · linarith
    · cases hM : totalMax (sv.views.map IViewItem.view) with
      | none => trivial
      | some M =>
        have hM2 := hhi M hM
        refine (leMax_some _ _).mpr ?_
        show total - contentOf views1 ≤ M - contentOf views1
        linarith
  rw [hc]
  ring

theorem resize_oob (views : List IViewItem) (index : ℤ) (delta : ℚ) (sizes : List ℚ)
    (lowPriorityIndexes highPriorityIndexes : Option (List Nat))
    (hoob : index < 0 ∨ (views.length : ℤ) < index) :
    resize views index delta sizes lowPriorityIndexes highPriorityIndexes = views := by
  unfold resize
  rw [if_pos hoob]

theorem specClampedDelta_zero (views : List IViewItem) (sizes : List ℚ) (index : Nat)
    (hlen : sizes.length = views.length) (hidx : index < views.length)
    (hb : ∀ i (h : i < views.length), InBounds views[i].view (sizes.getD i 0)) :
    specClampedDelta views sizes index 0 = 0 := by
  have hmem := specPairs_inbounds hlen hb
  have hup_mem : ∀ p ∈ (specPairs views sizes).take (index + 1), InBounds p.1 p.2 :=
    fun p hp => hmem p (List.mem_of_mem_take hp)
  have hdn_mem : ∀ p ∈ (specPairs views sizes).drop (index + 1), InBounds p.1 p.2 :=
    fun p hp => hmem p (List.mem_of_mem_drop hp)
  have hLoU : sumLo ((specPairs views sizes).take (index + 1)) ≤ 0 := sumLo_nonpos hup_mem
  have hHiU : leMax 0 (sumHi ((specPairs views sizes).take (index + 1))) :=
    leMax_zero_sumHi hup_mem
  have hLoD : sumLo ((specPairs views sizes).drop (index + 1)) ≤ 0 := sumLo_nonpos hdn_mem
  have hHiD : leMax 0 (sumHi ((specPairs views sizes).drop (index + 1))) :=
    leMax_zero_sumHi hdn_mem
  unfold specClampedDelta
  apply clampTop_zero
  · cases hcase : specMinDeltaDown views sizes index with
    | none => exact hLoU
    | some md =>
      have hmd : md ≤ 0 := by
        unfold specMinDeltaDown at hcase
        by_cases hd : views.length ≤ index + 1
        · rw [if_pos hd] at hcase; exact Option.noConfusion hcase
        · rw [if_neg hd] at hcase
          exact leMax_zero_negTop_sumHi md hcase hHiD
      exact max_le hLoU hmd
  · refine leMax_zero_minTop ?_ hHiU
    unfold specMaxDeltaDown
    by_cases hd : views.length ≤ index + 1
    · rw [if_pos hd]; trivial
    · rw [if_neg hd]
      exact (leMax_some _ _).mpr (by linarith)

theorem resizeCur_zero (views : List IViewItem) (n : Nat) (hn : n < views.length)
    (hb : ∀ it ∈ views, InBounds it.view it.size) :
    resizeCur views (n : ℤ) 0 none none = views := by
  have hb' := hb_indexed hb
  have hlen : (views.map IViewItem.size).length = views.length := List.length_map _ _
  have ht : codeTentative views (views.map IViewItem.size) n 0 = 0 := by
    rw [codeTentative_eq_spec views _ n hlen hn 0]
    exact specClampedDelta_zero views _ n hlen hn hb'
  have hupT : ∀ p ∈ (upIdx n).map (pairAt views (views.map IViewItem.size)),
      InBounds p.1 p.2 :=
    pairs_inbounds hb' (fun i hi => by have := mem_upIdx.mp hi; omega)
  have hdnT : ∀ p ∈ (downIdx views.length n).map (pairAt views (views.map IViewItem.size)),
      InBounds p.1 p.2 :=
    pairs_inbounds hb' (fun i hi => (mem_downIdx.mp hi).2)
  have heq := resize_nat_eq views (views.map IViewItem.size) n 0 (le_of_lt hn)
  rw [ht, upPass_zero hupT] at heq
  have hdn0 : downPass (0 : ℚ)
      ((downIdx views.length n).map (pairAt views (views.map IViewItem.size))) =
      ((downIdx views.length n).map (pairAt views (views.map IViewItem.size))).map
        Prod.snd := by
    rw [downPass_eq_upPass, neg_zero, upPass_zero hdnT]
  rw [hdn0] at heq
  have hcur : resizeCur views (n : ℤ) 0 none none =
      resize views (n : ℤ) 0 (views.map IViewItem.size) none none := rfl
  rw [hcur, heq]
  have hvals : ∀ is : List Nat,
      ((is.map (pairAt views (views.map IViewItem.size))).map Prod.snd) =
      is.map (fun i => (views.map IViewItem.size).getD i 0) := by
    intro is
    rw [List.map_map]
    rfl
  apply items_ext
  · rw [foldl_setSize_map_view, foldl_setSize_map_view]
  · rw [foldl_setSize_map_size, foldl_setSize_map_size, hvals, hvals,
      foldl_set_zip_map, foldl_set_zip_map]
    apply List.ext_getElem?
    intro q
    rw [getElem?_foldl_set_fun, length_foldl_set_fun, getElem?_foldl_set_fun]
    have hgd : ∀ j, j < views.length → (views.map IViewItem.size)[j]? =
        some ((views.map IViewItem.size).getD j 0) := by
      intro j hj
      rw [List.getD_eq_getElem?_getD,
        List.getElem?_eq_getElem (show j < (views.map IViewItem.size).length by omega)]
      rfl
    by_cases h1 : q ∈ downIdx views.length n ∧ q < (views.map IViewItem.size).length
    · rw [if_pos h1, hgd q (by rw [← hlen]; exact h1.2)]
    · rw [if_neg h1]
      by_cases h2 : q ∈ upIdx n ∧ q < (views.map IViewItem.size).length
      · rw [if_pos h2, hgd q (by rw [← hlen]; exact h2.2)]
      · rw [if_neg h2]

/-! ## distributeViewSizes (C6) -/

theorem saveProportions_views (sv : SplitView) : (saveProportions sv).views = sv.views := by
  unfold saveProportions
  cases sv.contentSize with
  | none => rfl
  | some c =>
    by_cases hc : 0 < c
    · simp [hc]
    · simp [hc]

theorem relayout_views (sv : SplitView)
    (lowPriorityIndexes highPriorityIndexes : Option (List Nat)) :
    (relayout sv lowPriorityIndexes highPriorityIndexes).views =
      resizeCur sv.views ((sv.views.length : ℤ) - 1) (sv.size - contentOf sv.views)
        lowPriorityIndexes highPriorityIndexes := by
  unfold relayout
  rw [saveProportions_views]
  rfl

theorem flex_sum (v : ℤ) : ∀ (l : List IViewItem),
    (∀ it ∈ l, flexible it = true → it.size = (v : ℚ)) →
    ((l.filter flexible).map IViewItem.size).sum = ((l.filter flexible).length : ℚ) * v := by
  intro l
  induction l with
  | nil => simp
  | cons it t ih =>
    intro h
    have ht := fun q hq hf => h q (List.mem_cons_of_mem _ hq) hf
    by_cases hf : flexible it
    · rw [List.filter_cons_of_pos hf, List.map_cons, List.sum_cons, ih ht,
        h it (List.mem_cons_self _ _) hf, List.length_cons]
      push_cast
      ring
    · rw [List.filter_cons_of_neg (by simpa using hf)]
      exact ih ht

/-- Counterexample to C6 as stated: two flexible items (min 0, max 100) with
sizes 0/0 in a container of size 100 — all flexible items within bounds.  The
first distributeViewSizes call yields sizes 0/100 (the trailing relayout
re-anchors the whole correction at the last item); the second call yields
50/50, so the second call changes item sizes. -/
theorem c6_counterexample :
    (∀ it ∈ ((⟨[⟨⟨0, some 100, none⟩, 0⟩, ⟨⟨0, some 100, none⟩, 0⟩], 1, 100, 0,
        none, none⟩ : SplitView)).views, flexible it = true →
      it.view.minimumSize ≤ it.size ∧ leMax it.size it.view.maximumSize) ∧
    (distributeViewSizes (⟨[⟨⟨0, some 100, none⟩, 0⟩, ⟨⟨0, some 100, none⟩, 0⟩], 1, 100,
        0, none, none⟩ : SplitView)).views.map IViewItem.size = [0, 100] ∧
    (distributeViewSizes (distributeViewSizes (⟨[⟨⟨0, some 100, none⟩, 0⟩,
        ⟨⟨0, some 100, none⟩, 0⟩], 1, 100, 0, none, none⟩ : SplitView))).views.map
      IViewItem.size = [50, 50] ∧
    ([0, 100] : List ℚ) ≠ [50, 50] :=
  ⟨of_decide_eq_true (by with_unfolding_all rfl),
    of_decide_eq_true (by with_unfolding_all rfl),
    of_decide_eq_true (by with_unfolding_all rfl),
    of_decide_eq_true (by with_unfolding_all rfl)⟩

/-- C6 amended: distributeViewSizes changes no item (so a repeated call is a
no-op on sizes) once the state is settled: every item within its effective
bounds, every flexible item's size equal to one common integer value and not
below its stated minimum, and the content size equal to the container size. -/
theorem c6_distribute_settled_amended (sv : SplitView) (v : ℤ)
    (hb : ∀ it ∈ sv.views, InBounds it.view it.size)
    (hflex : ∀ it ∈ sv.views, flexible it = true →
      it.view.minimumSize ≤ it.size ∧ it.size = (v : ℚ))
    (hsum : contentOf sv.views = sv.size) :
    (distributeViewSizes sv).views = sv.views := by
  have hassign : sv.views.map
      (fun item =>
        if flexible item then
          { item with size := (clampTop
            (if (sv.views.filter flexible).length = 0 then 0
             else ((⌊((sv.views.filter flexible).map (fun i => i.size)).sum /
               ((sv.views.filter flexible).length : ℚ)⌋ : ℤ) : ℚ))
            item.view.minimumSize item.view.maximumSize) }
        else item) = sv.views := by
    have : ∀ it ∈ sv.views,
        (if flexible it then
          { it with size := (clampTop
            (if (sv.views.filter flexible).length = 0 then 0
             else ((⌊((sv.views.filter flexible).map (fun i => i.size)).sum /
               ((sv.views.filter flexible).length : ℚ)⌋ : ℤ) : ℚ))
            it.view.minimumSize it.view.maximumSize) }
        else it) = it := by
      intro it hit
      by_cases hf : flexible it
      · have hn0 : (sv.views.filter flexible).length ≠ 0 := by
          have : it ∈ sv.views.filter flexible := List.mem_filter.mpr ⟨hit, hf⟩
          have := List.length_pos.mpr (List.ne_nil_of_mem this)
          omega
        have hsumflex : ((sv.views.filter flexible).map (fun i => i.size)).sum =
            (((sv.views.filter flexible).length : ℕ) : ℚ) * v :=
          flex_sum v sv.views (fun q hq hfq => (hflex q hq hfq).2)
        have havg : (if (sv.views.filter flexible).length = 0 then (0 : ℚ)
            else ((⌊((sv.views.filter flexible).map (fun i => i.size)).sum /
              ((sv.views.filter flexible).length : ℚ)⌋ : ℤ) : ℚ)) = (v : ℚ) := by
          rw [if_neg hn0, hsumflex,
            mul_div_cancel_left₀ _ (Nat.cast_ne_zero.mpr hn0), Int.floor_intCast]
        rw [if_pos hf, havg]
        have hvsize : (v : ℚ) = it.size := ((hflex it hit hf).2).symm
        rw [hvsize, clampTop_eq_self (hflex it hit hf).1 (hb it hit).2]
      · rw [if_neg hf]
    exact (List.map_congr_left this).trans (List.map_id _)
  have hun : (distributeViewSizes sv).views =
      (relayout { sv with views := sv.views } none none).views := by
    show (relayout { sv with views := (sv.views.map
      (fun item =>
        if flexible item then
          { item with size := (clampTop
            (if (sv.views.filter flexible).length = 0 then 0
             else ((⌊((sv.views.filter flexible).map (fun i => i.size)).sum /
               ((sv.views.filter flexible).length : ℚ)⌋ : ℤ) : ℚ))
            item.view.minimumSize item.view.maximumSize) }
        else item)) } none none).views = _
    rw [hassign]
  rw [hun, relayout_views]
  show resizeCur sv.views ((sv.views.length : ℤ) - 1) (sv.size - contentOf sv.views)
    none none = sv.views
  rw [hsum, sub_self]
  by_cases hlen0 : sv.views.length = 0
  · have hneg : ((sv.views.length : ℤ) - 1) < 0 := by omega
    exact resize_oob _ _ _ _ _ _ (Or.inl hneg)
  · have hcast : ((sv.views.length : ℤ) - 1) = ((sv.views.length - 1 : Nat) : ℤ) := by omega
    rw [hcast]
    exact resizeCur_zero sv.views (sv.views.length - 1) (by omega) hb

/-- Witness for the amended C6 at a concrete settled state. -/
theorem c6_distribute_settled_amended_witness :
    ((∀ it ∈ ((⟨[⟨⟨0, some 100, none⟩, 50⟩, ⟨⟨0, some 100, none⟩, 50⟩], 1, 100, 0,
        some 100, some [1 / 2, 1 / 2]⟩ : SplitView)).views, InBounds it.view it.size) ∧
      (∀ it ∈ ((⟨[⟨⟨0, some 100, none⟩, 50⟩, ⟨⟨0, some 100, none⟩, 50⟩], 1, 100, 0,
          some 100, some [1 / 2, 1 / 2]⟩ : SplitView)).views, flexible it = true →
        it.view.minimumSize ≤ it.size ∧ it.size = ((50 : ℤ) : ℚ)) ∧
      contentOf ((⟨[⟨⟨0, some 100, none⟩, 50⟩, ⟨⟨0, some 100, none⟩, 50⟩], 1, 100, 0,
        some 100, some [1 / 2, 1 / 2]⟩ : SplitView)).views =
        ((⟨[⟨⟨0, some 100, none⟩, 50⟩, ⟨⟨0, some 100, none⟩, 50⟩], 1, 100, 0,
          some 100, some [1 / 2, 1 / 2]⟩ : SplitView)).size) ∧
    (distributeViewSizes (⟨[⟨⟨0, some 100, none⟩, 50⟩, ⟨⟨0, some 100, none⟩, 50⟩], 1,
        100, 0, some 100, some [1 / 2, 1 / 2]⟩ : SplitView)).views =
      ((⟨[⟨⟨0, some 100, none⟩, 50⟩, ⟨⟨0, some 100, none⟩, 50⟩], 1, 100, 0,
        some 100, some [1 / 2, 1 / 2]⟩ : SplitView)).views :=
  ⟨⟨of_decide_eq_true (by with_unfolding_all rfl),
      of_decide_eq_true (by with_unfolding_all rfl),
      of_decide_eq_true (by with_unfolding_all rfl)⟩,
    c6_distribute_settled_amended _ 50
      (of_decide_eq_true (by with_unfolding_all rfl))
      (of_decide_eq_true (by with_unfolding_all rfl))
      (of_decide_eq_true (by with_unfolding_all rfl))⟩

/-- Witness for the amended C2 at a concrete input: one unbounded item,
proportion 1, layout to 150. -/
theorem c2_layout_sum_amended_witness :
    ((∀ it ∈ ([⟨⟨0, none, none⟩, 0⟩] : List IViewItem), WF it.view) ∧
      (⟨[⟨⟨0, none, none⟩, 0⟩], 0, 0, 0, some 1, some [1]⟩ : SplitView).proportions
        = some [1] ∧
      (⟨[⟨⟨0, none, none⟩, 0⟩], 0, 0, 0, some 1, some [1]⟩ :
        SplitView).views.length ≤ ([1] : List ℚ).length ∧
      totalEffMin (([⟨⟨0, none, none⟩, 0⟩] : List IViewItem).map IViewItem.view) ≤ 150) ∧
    ∃ out, layout ⟨[⟨⟨0, none, none⟩, 0⟩], 0, 0, 0, some 1, some [1]⟩ 150 0 = some out
      ∧ contentOf out.views = 150 :=
  ⟨⟨by decide, rfl, by decide,
      of_decide_eq_true (by with_unfolding_all rfl)⟩,
    c2_layout_sum_amended _ 150 0 [1] (by decide) rfl (by decide)
      (of_decide_eq_true (by with_unfolding_all rfl))
      (fun M hM => Option.noConfusion hM)⟩

/-- C7: out-of-range indexes are no-ops — `getViewSize` returns the sentinel
-1, `resizeView` leaves the state unchanged, `resize` with an index outside
`[0, itemCount]` leaves the items unchanged — and an empty engine has
`maximumSize = +∞` and `minimumSize = 0`. -/
theorem c7_out_of_range_and_empty :
    (∀ (sv : SplitView) (index : ℤ), (index < 0 ∨ (sv.views.length : ℤ) ≤ index) →
      getViewSize sv index = -1) ∧
    (∀ (sv : SplitView) (index : ℤ) (size : ℚ),
      (index < 0 ∨ (sv.views.length : ℤ) ≤ index) → resizeView sv index size = sv) ∧
    (∀ (views : List IViewItem) (index : ℤ) (delta : ℚ) (sizes : List ℚ)
        (low high : Option (List Nat)), (index < 0 ∨ (views.length : ℤ) < index) →
      resize views index delta sizes low high = views) ∧
    (∀ sv : SplitView, sv.views = [] → maximumSize sv = none ∧ minimumSize sv = 0) := by
  refine ⟨?_, ?_, ?_, ?_⟩
  · intro sv index h
    unfold getViewSize
    rw [if_pos h]
  · intro sv index size h
    unfold resizeView
    rw [if_pos h]
  · intro views index delta sizes low high h
    exact resize_oob _ _ _ _ _ _ h
  · intro sv h
    constructor
    · unfold maximumSize
      rw [if_pos (by rw [h]; rfl)]
    · unfold minimumSize
      rw [h]
      rfl

/-- Witness for C7 at concrete inputs. -/
theorem c7_out_of_range_and_empty_witness :
    (((5 : ℤ) < 0 ∨ ((⟨[⟨⟨0, none, none⟩, 10⟩], 0, 10, 0, some 10, some [1]⟩ :
        SplitView)).views.length ≤ (5 : ℤ)) ∧
      ((⟨[], 0, 0, 0, none, none⟩ : SplitView)).views = []) ∧
    getViewSize ⟨[⟨⟨0, none, none⟩, 10⟩], 0, 10, 0, some 10, some [1]⟩ 5 = -1 ∧
    resizeView ⟨[⟨⟨0, none, none⟩, 10⟩], 0, 10, 0, some 10, some [1]⟩ 5 40 =
      ⟨[⟨⟨0, none, none⟩, 10⟩], 0, 10, 0, some 10, some [1]⟩ ∧
    resize [⟨⟨0, none, none⟩, 10⟩] 7 3 [10] none none = [⟨⟨0, none, none⟩, 10⟩] ∧
    (maximumSize ⟨[], 0, 0, 0, none, none⟩ = none ∧
      minimumSize ⟨[], 0, 0, 0, none, none⟩ = 0) :=
  ⟨⟨by decide, rfl⟩,
    c7_out_of_range_and_empty.1 _ 5 (by decide),
    c7_out_of_range_and_empty.2.1 _ 5 40 (by decide),
    c7_out_of_range_and_empty.2.2.1 _ 7 3 [10] none none (by decide),
    c7_out_of_range_and_empty.2.2.2 _ rfl⟩

/-- C8: when the recorded content size is positive, `saveProportions` records
`size / contentSize` for every item; when the content size is unset or not
positive, the whole state (in particular the proportions) is unchanged. -/
theorem c8_save_proportions (sv : SplitView) :
    (∀ c, sv.contentSize = some c → 0 < c →
      saveProportions sv =
        { sv with proportions := some (sv.views.map (fun i => i.size / c)) }) ∧
    ((sv.contentSize = none ∨ ∀ c, sv.contentSize = some c → ¬(0 < c)) →
      saveProportions sv = sv) := by
  obtain ⟨vs, sa, sz, os, cs, pr⟩ := sv
  constructor
  · intro c hc h0
    have hc' : cs = some c := hc
    subst hc'
    show (if 0 < c then (⟨vs, sa, sz, os, some c,
      some (vs.map (fun i => i.size / c))⟩ : SplitView)
      else ⟨vs, sa, sz, os, some c, pr⟩) = _
    rw [if_pos h0]
  · intro h
    cases cs with
    | none => rfl
    | some c =>
      rcases h with h | h
      · exact Option.noConfusion h
      · show (if 0 < c then (⟨vs, sa, sz, os, some c,
          some (vs.map (fun i => i.size / c))⟩ : SplitView)
          else ⟨vs, sa, sz, os, some c, pr⟩) = _
        rw [if_neg (h c rfl)]

/-- Witness for C8 at concrete inputs: one positive content size, one zero. -/
theorem c8_save_proportions_witness :
    (((⟨[⟨⟨0, none, none⟩, 10⟩], 0, 10, 0, some 10, none⟩ : SplitView)).contentSize
        = some 10 ∧ (0 : ℚ) < 10 ∧
      ((⟨[⟨⟨0, none, none⟩, 10⟩], 0, 10, 0, some 0, some [1]⟩ : SplitView)).contentSize
        = some 0 ∧ ¬((0 : ℚ) < 0)) ∧
    saveProportions ⟨[⟨⟨0, none, none⟩, 10⟩], 0, 10, 0, some 10, none⟩ =
      { (⟨[⟨⟨0, none, none⟩, 10⟩], 0, 10, 0, some 10, none⟩ : SplitView) with
        proportions := (some (([⟨⟨0, none, none⟩, 10⟩] : List IViewItem).map
          (fun i => i.size / 10))) } ∧
    saveProportions ⟨[⟨⟨0, none, none⟩, 10⟩], 0, 10, 0, some 0, some [1]⟩ =
      ⟨[⟨⟨0, none, none⟩, 10⟩], 0, 10, 0, some 0, some [1]⟩ :=
  ⟨⟨rfl, of_decide_eq_true (by with_unfolding_all rfl), rfl,
      of_decide_eq_true (by with_unfolding_all rfl)⟩,
    (c8_save_proportions _).1 10 rfl (of_decide_eq_true (by with_unfolding_all rfl)),
    (c8_save_proportions _).2 (Or.inr (fun c hc => by
      have : c = 0 := by
        have := hc.symm.trans (rfl : ((⟨[⟨⟨0, none, none⟩, 10⟩], 0, 10, 0, some 0,
          some [1]⟩ : SplitView)).contentSize = some 0)
        simpa using this
      rw [this]
      exact of_decide_eq_true (by with_unfolding_all rfl)))⟩

/-! ## State-component lemmas for addView / removeView -/

theorem length_foldl_setSize (ps : List (Nat × ℚ)) (vs : List IViewItem) :
    (ps.foldl (fun l p => setSize l p.1 p.2) vs).length = vs.length := by
  induction ps generalizing vs with
  | nil => rfl
  | cons p t ih => rw [List.foldl_cons, ih, length_setSize]

theorem length_resize (views : List IViewItem) (index : ℤ) (delta : ℚ) (sizes : List ℚ)
    (lowPriorityIndexes highPriorityIndexes : Option (List Nat)) :
    (resize views index delta sizes lowPriorityIndexes highPriorityIndexes).length
      = views.length := by
  unfold resize
  split
  · rfl
  · simp only [length_foldl_setSize]

theorem length_resizeCur (views : List IViewItem) (index : ℤ) (delta : ℚ)
    (lowPriorityIndexes highPriorityIndexes : Option (List Nat)) :
    (resizeCur views index delta lowPriorityIndexes highPriorityIndexes).length
      = views.length :=
  length_resize _ _ _ _ _ _

theorem saveProportions_sashes (sv : SplitView) :
    (saveProportions sv).sashes = sv.sashes := by
  unfold saveProportions
  cases sv.contentSize with
  | none => rfl
  | some c =>
    by_cases hc : 0 < c
    · simp [hc]
    · simp [hc]

theorem relayout_sashes (sv : SplitView)
    (lowPriorityIndexes highPriorityIndexes : Option (List Nat)) :
    (relayout sv lowPriorityIndexes highPriorityIndexes).sashes = sv.sashes := by
  unfold relayout
  rw [saveProportions_sashes]
  rfl

theorem relayout_len (sv : SplitView)
    (lowPriorityIndexes highPriorityIndexes : Option (List Nat)) :
    (relayout sv lowPriorityIndexes highPriorityIndexes).views.length
      = sv.views.length := by
  rw [relayout_views, length_resizeCur]

theorem distributeEmptySpace_sashes (sv : SplitView) :
    (distributeEmptySpace sv).sashes = sv.sashes := rfl

theorem distributeEmptySpace_len (sv : SplitView) :
    (distributeEmptySpace sv).views.length = sv.views.length := by
  show ((desAux (sv.size - contentOf sv.views) sv.views.reverse).reverse).length
    = sv.views.length
  rw [List.length_reverse, desAux_length, List.length_reverse]

theorem distributeViewSizes_sashes (sv : SplitView) :
    (distributeViewSizes sv).sashes = sv.sashes := by
  unfold distributeViewSizes
  exact relayout_sashes _ _ _

theorem distributeViewSizes_len (sv : SplitView) :
    (distributeViewSizes sv).views.length = sv.views.length := by
  unfold distributeViewSizes
  exact (relayout_len _ _ _).trans (List.length_map _ _)

theorem spliceStart_lt (len : Nat) (index : ℤ) :
    spliceStart len index < len ↔ (0 < len ∧ index < (len : ℤ)) := by
  unfold spliceStart
  split <;> omega

theorem addView_sashes (sv : SplitView) (view : IBaseView) (size : AddSize)
    (index : Nat) (skipLayout : Bool) :
    (addView sv view size index skipLayout).sashes =
      (if 1 < sv.views.length + 1 then sv.sashes + 1 else sv.sashes) := by
  have hlen : ∀ x : IViewItem,
      (sv.views.insertIdx (min index sv.views.length) x).length = sv.views.length + 1 :=
    fun x => List.length_insertIdx _ _ (min_le_right _ _)
  have key : ∀ x : IViewItem,
      (if 1 < (sv.views.insertIdx (min index sv.views.length) x).length
        then sv.sashes + 1 else sv.sashes) =
      (if 1 < sv.views.length + 1 then sv.sashes + 1 else sv.sashes) :=
    fun x => by rw [hlen]
  unfold addView
  cases size with
  | px q =>
    cases skipLayout
    · exact (relayout_sashes _ _ _).trans (key _)
    · exact key _
  | sizing s =>
    cases s with
    | distribute =>
      cases skipLayout
      · exact (distributeViewSizes_sashes _).trans
          ((relayout_sashes _ _ _).trans (key _))
      · exact key _
    | split i =>
      cases skipLayout
      · exact (relayout_sashes _ _ _).trans (key _)
      · exact key _

theorem addView_len (sv : SplitView) (view : IBaseView) (size : AddSize)
    (index : Nat) (skipLayout : Bool) :
    (addView sv view size index skipLayout).views.length = sv.views.length + 1 := by
  have hlen : ∀ x : IViewItem,
      (sv.views.insertIdx (min index sv.views.length) x).length = sv.views.length + 1 :=
    fun x => List.length_insertIdx _ _ (min_le_right _ _)
  unfold addView
  cases size with
  | px q =>
    cases skipLayout
    · exact (relayout_len _ _ _).trans (hlen _)
    · exact hlen _
  | sizing s =>
    cases s with
    | distribute =>
      cases skipLayout
      · exact (distributeViewSizes_len _).trans ((relayout_len _ _ _).trans (hlen _))
      · exact hlen _
    | split i =>
      cases skipLayout
      · exact (relayout_len _ _ _).trans (hlen _)
      · exact hlen _

theorem remove_tail_parts (t : SplitView) (sizing : Option Sizing) :
    (match sizing with
      | some .distribute => distributeViewSizes (distributeEmptySpace (relayout t none none))
      | _ => distributeEmptySpace (relayout t none none)).views.length = t.views.length ∧
    (match sizing with
      | some .distribute => distributeViewSizes (distributeEmptySpace (relayout t none none))
      | _ => distributeEmptySpace (relayout t none none)).sashes = t.sashes := by
  rcases sizing with _ | s
  · exact ⟨(distributeEmptySpace_len _).trans (relayout_len _ _ _),
      (distributeEmptySpace_sashes _).trans (relayout_sashes _ _ _)⟩
  · rcases s with _ | i
    · exact ⟨(distributeViewSizes_len _).trans
          ((distributeEmptySpace_len _).trans (relayout_len _ _ _)),
        (distributeViewSizes_sashes _).trans
          ((distributeEmptySpace_sashes _).trans (relayout_sashes _ _ _))⟩
    · exact ⟨(distributeEmptySpace_len _).trans (relayout_len _ _ _),
      (distributeEmptySpace_sashes _).trans (relayout_sashes _ _ _)⟩

theorem removeView_eq_ok (sv : SplitView) (index : ℤ) (sizing : Option Sizing)
    (item : IViewItem)
    (hget : sv.views.get? (spliceStart sv.views.length index) = some item)
    (hcond : ¬(1 ≤ (sv.views.eraseIdx (spliceStart sv.views.length index)).length
      ∧ sv.sashes = 0)) :
    removeView sv index sizing = Except.ok
      ((match sizing with
        | some .distribute => distributeViewSizes (distributeEmptySpace (relayout (if 1 ≤ (sv.views.eraseIdx (spliceStart sv.views.length index)).length then { sv with views := sv.views.eraseIdx (spliceStart sv.views.length index), sashes := sv.sashes - 1 } else { sv with views := sv.views.eraseIdx (spliceStart sv.views.length index) }) none none))
        | _ => distributeEmptySpace (relayout (if 1 ≤ (sv.views.eraseIdx (spliceStart sv.views.length index)).length then { sv with views := sv.views.eraseIdx (spliceStart sv.views.length index), sashes := sv.sashes - 1 } else { sv with views := sv.views.eraseIdx (spliceStart sv.views.length index) }) none none)),
        item.view) := by
  unfold removeView
  simp only [hget]
  rw [if_neg hcond]

theorem removeView_eq_error (sv : SplitView) (index : ℤ) (sizing : Option Sizing)
    (hk : ¬ spliceStart sv.views.length index < sv.views.length) :
    removeView sv index sizing = Except.error sv := by
  have hget : sv.views.get? (spliceStart sv.views.length index) = none :=
    List.get?_eq_none.mpr (Nat.le_of_not_lt hk)
  unfold removeView
  simp only [hget]

theorem removeView_ok_parts (sv : SplitView) (index : ℤ) (sizing : Option Sizing)
    (out : SplitView × IBaseView) (hinv : sv.sashes = sv.views.length - 1)
    (h0 : 0 ≤ index) (hlt : index < (sv.views.length : ℤ))
    (hrem : removeView sv index sizing = Except.ok out) :
    out.1.views.length = sv.views.length - 1 ∧
    out.1.sashes = (if 1 ≤ sv.views.length - 1 then sv.sashes - 1 else sv.sashes) ∧
    out.1.sashes = out.1.views.length - 1 := by
  have hk : spliceStart sv.views.length index < sv.views.length :=
    (spliceStart_lt _ _).mpr ⟨by omega, hlt⟩
  obtain ⟨item, hget⟩ : ∃ it, sv.views.get? (spliceStart sv.views.length index) = some it :=
    ⟨_, List.get?_eq_get hk⟩
  have herase : (sv.views.eraseIdx (spliceStart sv.views.length index)).length
      = sv.views.length - 1 := List.length_eraseIdx_of_lt hk
  have hcond : ¬(1 ≤ (sv.views.eraseIdx (spliceStart sv.views.length index)).length
      ∧ sv.sashes = 0) := by
    rw [herase]
    omega
  rw [removeView_eq_ok sv index sizing item hget hcond] at hrem
  injection hrem with h
  obtain ⟨hTlen, hTsash⟩ := remove_tail_parts (if 1 ≤ (sv.views.eraseIdx (spliceStart sv.views.length index)).length then { sv with views := sv.views.eraseIdx (spliceStart sv.views.length index), sashes := sv.sashes - 1 } else { sv with views := sv.views.eraseIdx (spliceStart sv.views.length index) }) sizing
  have hsv2len : (if 1 ≤ (sv.views.eraseIdx (spliceStart sv.views.length index)).length then ({ sv with views := sv.views.eraseIdx (spliceStart sv.views.length index), sashes := sv.sashes - 1 } : SplitView) else { sv with views := sv.views.eraseIdx (spliceStart sv.views.length index) }).views.length = sv.views.length - 1 := by
    split
    · exact herase
    · exact herase
  have hsv2sash : (if 1 ≤ (sv.views.eraseIdx (spliceStart sv.views.length index)).length then ({ sv with views := sv.views.eraseIdx (spliceStart sv.views.length index), sashes := sv.sashes - 1 } : SplitView) else { sv with views := sv.views.eraseIdx (spliceStart sv.views.length index) }).sashes = (if 1 ≤ sv.views.length - 1 then sv.sashes - 1 else sv.sashes) := by
    rw [herase]
    by_cases hc : 1 ≤ sv.views.length - 1
    · rw [if_pos hc, if_pos hc]
    · rw [if_neg hc, if_neg hc]
  have h1 : out.1.views.length = sv.views.length - 1 := by
    rw [← h]
    exact hTlen.trans hsv2len
  have h2 : out.1.sashes = (if 1 ≤ sv.views.length - 1 then sv.sashes - 1 else sv.sashes) := by
    rw [← h]
    exact hTsash.trans hsv2sash
  refine ⟨h1, h2, ?_⟩
  rw [h2, h1]
  split <;> omega

/-- C9: under the sash invariant `sashes = max(itemCount - 1, 0)`, every
`addView` increments the item count and adds exactly one sash whenever the item
count becomes greater than one, every successful in-range `removeView`
decrements the item count and removes exactly one sash whenever at least one
item remains, and in both cases the invariant `sashes = max(itemCount - 1, 0)`
holds again afterwards. -/
theorem c9_sash_count (sv : SplitView) (hinv : sv.sashes = sv.views.length - 1) :
    (∀ (view : IBaseView) (size : AddSize) (index : Nat) (skipLayout : Bool),
      (addView sv view size index skipLayout).views.length = sv.views.length + 1 ∧
      (addView sv view size index skipLayout).sashes =
        (if 1 < sv.views.length + 1 then sv.sashes + 1 else sv.sashes) ∧
      (addView sv view size index skipLayout).sashes =
        (addView sv view size index skipLayout).views.length - 1) ∧
    (∀ (index : ℤ) (sizing : Option Sizing) (out : SplitView × IBaseView),
      0 ≤ index → index < (sv.views.length : ℤ) →
      removeView sv index sizing = Except.ok out →
      out.1.views.length = sv.views.length - 1 ∧
      out.1.sashes = (if 1 ≤ sv.views.length - 1 then sv.sashes - 1 else sv.sashes) ∧
      out.1.sashes = out.1.views.length - 1) := by
  constructor
  · intro view size index skipLayout
    refine ⟨addView_len _ _ _ _ _, addView_sashes _ _ _ _ _, ?_⟩
    rw [addView_len, addView_sashes]
    split <;> omega
  · intro index sizing out h0 hlt hrem
    exact removeView_ok_parts sv index sizing out hinv h0 hlt hrem

/-- Witness for C9 at concrete inputs: a one-item engine with no sash; an
`addView` at the end and a `removeView` at index 0. -/
theorem c9_sash_count_witness :
    ((⟨[⟨⟨0, none, none⟩, 10⟩], 0, 10, 0, some 10, none⟩ : SplitView).sashes
        = (⟨[⟨⟨0, none, none⟩, 10⟩], 0, 10, 0, some 10, none⟩ : SplitView).views.length - 1
      ∧ (0 : ℤ) ≤ 0
      ∧ (0 : ℤ) < ((⟨[⟨⟨0, none, none⟩, 10⟩], 0, 10, 0, some 10, none⟩ :
          SplitView).views.length : ℤ)
      ∧ removeView ⟨[⟨⟨0, none, none⟩, 10⟩], 0, 10, 0, some 10, none⟩ 0 none
          = Except.ok (⟨[], 0, 10, 0, some 0, none⟩, ⟨0, none, none⟩)) ∧
    ((addView ⟨[⟨⟨0, none, none⟩, 10⟩], 0, 10, 0, some 10, none⟩ ⟨0, none, none⟩
          (.px 20) 1 true).views.length
        = (⟨[⟨⟨0, none, none⟩, 10⟩], 0, 10, 0, some 10, none⟩ :
            SplitView).views.length + 1 ∧
      (addView ⟨[⟨⟨0, none, none⟩, 10⟩], 0, 10, 0, some 10, none⟩ ⟨0, none, none⟩
          (.px 20) 1 true).sashes =
        (if 1 < (⟨[⟨⟨0, none, none⟩, 10⟩], 0, 10, 0, some 10, none⟩ :
            SplitView).views.length + 1
          then (⟨[⟨⟨0, none, none⟩, 10⟩], 0, 10, 0, some 10, none⟩ :
            SplitView).sashes + 1
          else (⟨[⟨⟨0, none, none⟩, 10⟩], 0, 10, 0, some 10, none⟩ :
            SplitView).sashes) ∧
      (addView ⟨[⟨⟨0, none, none⟩, 10⟩], 0, 10, 0, some 10, none⟩ ⟨0, none, none⟩
          (.px 20) 1 true).sashes =
        (addView ⟨[⟨⟨0, none, none⟩, 10⟩], 0, 10, 0, some 10, none⟩ ⟨0, none, none⟩
          (.px 20) 1 true).views.length - 1) ∧
    (((⟨[], 0, 10, 0, some 0, none⟩ : SplitView), (⟨0, none, none⟩ :
        IBaseView)).1.views.length
        = (⟨[⟨⟨0, none, none⟩, 10⟩], 0, 10, 0, some 10, none⟩ :
            SplitView).views.length - 1 ∧
      ((⟨[], 0, 10, 0, some 0, none⟩ : SplitView), (⟨0, none, none⟩ :
        IBaseView)).1.sashes =
        (if 1 ≤ (⟨[⟨⟨0, none, none⟩, 10⟩], 0, 10, 0, some 10, none⟩ :
            SplitView).views.length - 1
          then (⟨[⟨⟨0, none, none⟩, 10⟩], 0, 10, 0, some 10, none⟩ :
            SplitView).sashes - 1
          else (⟨[⟨⟨0, none, none⟩, 10⟩], 0, 10, 0, some 10, none⟩ :
            SplitView).sashes) ∧
      ((⟨[], 0, 10, 0, some 0, none⟩ : SplitView), (⟨0, none, none⟩ :
        IBaseView)).1.sashes =
        ((⟨[], 0, 10, 0, some 0, none⟩ : SplitView), (⟨0, none, none⟩ :
          IBaseView)).1.views.length - 1) :=
  ⟨⟨rfl, by decide, by decide, by with_unfolding_all rfl⟩,
    (c9_sash_count ⟨[⟨⟨0, none, none⟩, 10⟩], 0, 10, 0, some 10, none⟩ rfl).1
      ⟨0, none, none⟩ (.px 20) 1 true,
    (c9_sash_count ⟨[⟨⟨0, none, none⟩, 10⟩], 0, 10, 0, some 10, none⟩ rfl).2
      0 none (⟨[], 0, 10, 0, some 0, none⟩, ⟨0, none, none⟩) (by decide) (by decide)
      (by with_unfolding_all rfl)⟩

/-- Counterexample to C10 as stated: with two items (sash invariant holding),
`removeView(-1)` — an index outside `[0, itemCount)` — does NOT hit the error
path: JS splice normalisation wraps `-1` to the last item, the splice yields
that item, its dispose succeeds and the call returns normally. -/
theorem c10_counterexample :
    (((-1 : ℤ) < 0 ∨ (2 : ℤ) ≤ (-1 : ℤ)) ∧
      (⟨[⟨⟨0, none, none⟩, 50⟩, ⟨⟨0, none, none⟩, 50⟩], 1, 100, 0, some 100, none⟩ :
        SplitView).views.length = 2) ∧
    (removeView ⟨[⟨⟨0, none, none⟩, 50⟩, ⟨⟨0, none, none⟩, 50⟩], 1, 100, 0,
        some 100, none⟩ (-1) none).isOk = true :=
  ⟨⟨by decide, rfl⟩, of_decide_eq_true (by with_unfolding_all rfl)⟩

/-- C10 (amended): `removeView` performs no explicit bounds check, but its
index is normalised by JS `splice` semantics (a negative index counts from the
end, clamped to 0), so under the sash invariant the call fails exactly when
there is no item to remove — the engine is empty or `itemCount <= index`; in
that case the splice yields no item, dispose of the missing item throws, and
the call aborts with the state (views and sashes) unchanged.  For every other
index, including every negative one on a non-empty engine, the call returns
normally. -/
theorem c10_remove_view_error_amended (sv : SplitView) (index : ℤ)
    (sizing : Option Sizing) (hinv : sv.sashes = sv.views.length - 1) :
    ((removeView sv index sizing).isOk = true ↔
      (0 < sv.views.length ∧ index < (sv.views.length : ℤ))) ∧
    (∀ e, removeView sv index sizing = Except.error e → e = sv) := by
  by_cases hk : spliceStart sv.views.length index < sv.views.length
  · obtain ⟨item, hget⟩ : ∃ it, sv.views.get? (spliceStart sv.views.length index)
        = some it := ⟨_, List.get?_eq_get hk⟩
    have herase : (sv.views.eraseIdx (spliceStart sv.views.length index)).length
        = sv.views.length - 1 := List.length_eraseIdx_of_lt hk
    have hcond : ¬(1 ≤ (sv.views.eraseIdx (spliceStart sv.views.length index)).length
        ∧ sv.sashes = 0) := by
      rw [herase]
      omega
    have heq := removeView_eq_ok sv index sizing item hget hcond
    constructor
    · exact iff_of_true (by rw [heq]; rfl) ((spliceStart_lt _ _).mp hk)
    · intro e he
      rw [heq] at he
      exact Except.noConfusion he
  · have heq := removeView_eq_error sv index sizing hk
    constructor
    · refine iff_of_false ?_ (fun hc => hk ((spliceStart_lt _ _).mpr hc))
      rw [heq]
      exact fun hcontra => Bool.noConfusion hcontra
    · intro e he
      rw [heq] at he
      exact (Except.error.inj he).symm

/-- Witness for the amended C10 at a concrete input: a one-item engine with no
sash and the out-of-range index 5. -/
theorem c10_remove_view_error_amended_witness :
    ((⟨[⟨⟨0, none, none⟩, 10⟩], 0, 10, 0, some 10, none⟩ : SplitView).sashes
        = (⟨[⟨⟨0, none, none⟩, 10⟩], 0, 10, 0, some 10, none⟩ :
            SplitView).views.length - 1) ∧
    ((removeView ⟨[⟨⟨0, none, none⟩, 10⟩], 0, 10, 0, some 10, none⟩ 5 none).isOk = true
      ↔ (0 < (⟨[⟨⟨0, none, none⟩, 10⟩], 0, 10, 0, some 10, none⟩ :
          SplitView).views.length ∧
        (5 : ℤ) < ((⟨[⟨⟨0, none, none⟩, 10⟩], 0, 10, 0, some 10, none⟩ :
          SplitView).views.length : ℤ))) ∧
    (∀ e, removeView ⟨[⟨⟨0, none, none⟩, 10⟩], 0, 10, 0, some 10, none⟩ 5 none
        = Except.error e →
      e = ⟨[⟨⟨0, none, none⟩, 10⟩], 0, 10, 0, some 10, none⟩) :=
  ⟨rfl,
    (c10_remove_view_error_amended ⟨[⟨⟨0, none, none⟩, 10⟩], 0, 10, 0, some 10, none⟩
      5 none rfl).1,
    (c10_remove_view_error_amended ⟨[⟨⟨0, none, none⟩, 10⟩], 0, 10, 0, some 10, none⟩
      5 none rfl).2⟩

end Splitview
